import Mathlib

set_option maxRecDepth 8000

/-
Verification of the review-processing pipeline of the opinator repository.

The definitions below are a shallow embedding of the Python sources:
  app/services/sentiment_analyzer.py
  app/services/keyword_analyzer.py
  app/services/summarizer.py
  app/services/scraping_service.py
  app/services/vector_service.py
  app/inngest/functions.py
Machine floats are modelled as rationals, Python dicts as association
lists in insertion order, and external collaborators (the transformer
models, the Qdrant client, the HTTP fetch layer, Python's salted builtin
string hash) as explicit function parameters.  hashlib.md5 is implemented
concretely below, byte for byte, so that hash values can be computed
inside proofs.
-/

namespace Opinator

/-! ## MD5 (the hashlib.md5 collaborator, RFC 1321) -/

/-- Truncating 32-bit addition. -/
def wadd (a b : Nat) : Nat := (a + b) % 4294967296

/-- Bitwise complement on 32-bit words (input already reduced mod 2^32). -/
def wnot (a : Nat) : Nat := 4294967295 - a % 4294967296

/-- Rotate a 32-bit word left by `c` bits (0 < c < 32). -/
def rotl (x c : Nat) : Nat :=
  (((x % 4294967296) <<< c) % 4294967296) ||| ((x % 4294967296) >>> (32 - c))

/-- MD5 round constants, floor(2^32 * abs(sin(i+1))). -/
def md5K : List Nat :=
  [0xd76aa478, 0xe8c7b756, 0x242070db, 0xc1bdceee,
   0xf57c0faf, 0x4787c62a, 0xa8304613, 0xfd469501,
   0x698098d8, 0x8b44f7af, 0xffff5bb1, 0x895cd7be,
   0x6b901122, 0xfd987193, 0xa679438e, 0x49b40821,
   0xf61e2562, 0xc040b340, 0x265e5a51, 0xe9b6c7aa,
   0xd62f105d, 0x02441453, 0xd8a1e681, 0xe7d3fbc8,
   0x21e1cde6, 0xc33707d6, 0xf4d50d87, 0x455a14ed,
   0xa9e3e905, 0xfcefa3f8, 0x676f02d9, 0x8d2a4c8a,
   0xfffa3942, 0x8771f681, 0x6d9d6122, 0xfde5380c,
   0xa4beea44, 0x4bdecfa9, 0xf6bb4b60, 0xbebfbc70,
   0x289b7ec6, 0xeaa127fa, 0xd4ef3085, 0x04881d05,
   0xd9d4d039, 0xe6db99e5, 0x1fa27cf8, 0xc4ac5665,
   0xf4292244, 0x432aff97, 0xab9423a7, 0xfc93a039,
   0x655b59c3, 0x8f0ccc92, 0xffeff47d, 0x85845dd1,
   0x6fa87e4f, 0xfe2ce6e0, 0xa3014314, 0x4e0811a1,
   0xf7537e82, 0xbd3af235, 0x2ad7d2bb, 0xeb86d391]

/-- MD5 per-round left-rotation amounts. -/
def md5S : List Nat :=
  [7, 12, 17, 22, 7, 12, 17, 22, 7, 12, 17, 22, 7, 12, 17, 22,
   5, 9, 14, 20, 5, 9, 14, 20, 5, 9, 14, 20, 5, 9, 14, 20,
   4, 11, 16, 23, 4, 11, 16, 23, 4, 11, 16, 23, 4, 11, 16, 23,
   6, 10, 15, 21, 6, 10, 15, 21, 6, 10, 15, 21, 6, 10, 15, 21]

/-- Little-endian expansion of a natural number into `k` bytes. -/
def toLEBytes (k n : Nat) : List Nat :=
  (List.range k).map (fun i => (n >>> (8 * i)) % 256)

/-- MD5 padding: append 0x80, zero bytes up to 56 mod 64, then the
64-bit little-endian bit length. -/
def md5Pad (msg : List Nat) : List Nat :=
  let len := msg.length
  let padLen := (119 - (len % 64)) % 64
  msg ++ [0x80] ++ List.replicate padLen 0 ++ toLEBytes 8 ((8 * len) % 18446744073709551616)

/-- Split a byte list into 64-byte blocks (fuel-based structural recursion,
the fuel is an upper bound on the number of blocks). -/
def chunks64Aux : Nat → List Nat → List (List Nat)
  | 0, _ => []
  | _, [] => []
  | fuel + 1, b :: rest => ((b :: rest).take 64) :: chunks64Aux fuel (rest.drop 63)

/-- Split a byte list into 64-byte blocks. -/
def chunks64 (l : List Nat) : List (List Nat) := chunks64Aux l.length l

/-- Decode a 64-byte block into sixteen little-endian 32-bit words. -/
def blockWords (block : List Nat) : List Nat :=
  (List.range 16).map (fun j =>
    block.getD (4 * j) 0 + 256 * block.getD (4 * j + 1) 0 +
    65536 * block.getD (4 * j + 2) 0 + 16777216 * block.getD (4 * j + 3) 0)

/-- One MD5 round step on the running state (a, b, c, d). -/
def md5Step (m : List Nat) (st : Nat × Nat × Nat × Nat) (i : Nat) : Nat × Nat × Nat × Nat :=
  let (a, b, c, d) := st
  let fg : Nat × Nat :=
    if i < 16 then ((b &&& c) ||| (wnot b &&& d), i)
    else if i < 32 then ((d &&& b) ||| (wnot d &&& c), (5 * i + 1) % 16)
    else if i < 48 then ((b ^^^ c) ^^^ d, (3 * i + 5) % 16)
    else (c ^^^ (b ||| wnot d), (7 * i) % 16)
  let f := wadd (wadd (wadd fg.1 a) (md5K.getD i 0)) (m.getD fg.2 0)
  (d, wadd b (rotl f (md5S.getD i 0)), b, c)

/-- Process one 64-byte block, updating the MD5 state. -/
def md5Block (st : Nat × Nat × Nat × Nat) (block : List Nat) : Nat × Nat × Nat × Nat :=
  let m := blockWords block
  let r := (List.range 64).foldl (md5Step m) st
  let (a0, b0, c0, d0) := st
  let (a, b, c, d) := r
  (wadd a0 a, wadd b0 b, wadd c0 c, wadd d0 d)

/-- MD5 digest of a byte list, as 16 bytes. -/
def md5Bytes (msg : List Nat) : List Nat :=
  let init : Nat × Nat × Nat × Nat := (0x67452301, 0xefcdab89, 0x98badcfe, 0x10325476)
  let (a, b, c, d) := (chunks64 (md5Pad msg)).foldl md5Block init
  toLEBytes 4 a ++ toLEBytes 4 b ++ toLEBytes 4 c ++ toLEBytes 4 d

/-- Lower-case hex character for a nibble. -/
def hexChar (n : Nat) : Char :=
  if n < 10 then Char.ofNat (48 + n) else Char.ofNat (87 + n)

/-- Lower-case hex string of a byte list. -/
def bytesToHex (bs : List Nat) : String :=
  String.mk (bs.foldr (fun b acc => hexChar (b / 16) :: hexChar (b % 16) :: acc) [])

/-- UTF-8 encoding of one character. -/
def utf8Char (c : Char) : List Nat :=
  let n := c.toNat
  if n < 128 then [n]
  else if n < 2048 then [192 + n / 64, 128 + n % 64]
  else if n < 65536 then [224 + n / 4096, 128 + (n / 64) % 64, 128 + n % 64]
  else [240 + n / 262144, 128 + (n / 4096) % 64, 128 + (n / 64) % 64, 128 + n % 64]

/-- UTF-8 bytes of a string (Python's str.encode()). -/
def strUtf8 (s : String) : List Nat :=
  s.data.foldr (fun c acc => utf8Char c ++ acc) []

/-- hashlib.md5(s.encode()).hexdigest(). -/
def md5Hex (s : String) : String := bytesToHex (md5Bytes (strUtf8 s))

/-! ## Python string helpers -/

/-- The characters Python's str.strip() removes. -/
def pyWhitespace (c : Char) : Bool :=
  c == ' ' || c == '\t' || c == '\n' || c == '\r' || c.toNat == 11 || c.toNat == 12

/-- Python str.strip(): drop leading and trailing whitespace. -/
def pyStrip (s : String) : String :=
  String.mk (((s.data.dropWhile pyWhitespace).reverse.dropWhile pyWhitespace).reverse)

/-- Python str.lower() (ASCII range; the dictionary keywords and indicator
words relevant here are already lower case, accents included). -/
def strLower (s : String) : String := String.mk (s.data.map Char.toLower)

/-- Whether `needle` starts `hay`. -/
def startsWithChars : List Char → List Char → Bool
  | _, [] => true
  | [], _ :: _ => false
  | h :: hs, n :: ns => h == n && startsWithChars hs ns

/-- Whether `needle` occurs contiguously inside `hay`. -/
def sublistContains : List Char → List Char → Bool
  | [], needle => needle.isEmpty
  | c :: t, needle => startsWithChars (c :: t) needle || sublistContains t needle

/-- Python's substring test `needle in hay`. -/
def strContains (hay needle : String) : Bool := sublistContains hay.data needle.data

/-- Python round(x, 1), modelled with round-to-nearest.  The claims below
only evaluate it where the value is exact, so the tie-breaking rule
(banker's rounding in Python) never comes into play. -/
def round1 (q : ℚ) : ℚ := (round (q * 10) : ℤ) / 10

/-- Python round(x, 2), modelled with round-to-nearest (see round1). -/
def round2 (q : ℚ) : ℚ := (round (q * 100) : ℤ) / 100

/-! ## Sentiment analyzer (app/services/sentiment_analyzer.py)

The transformer text model is an external collaborator; it enters the
embedding as a function parameter.  Floats are modelled as rationals. -/

/-- The three canonical sentiment labels. -/
inductive SLabel
  | positive
  | negative
  | neutral
deriving DecidableEq, BEq, Repr, Inhabited

/-- A scraped review record, as produced by the fetch collaborator:
platform, text, optional numeric rating, author and date. -/
structure Review where
  platform : String
  author : String
  text : String
  rating : Option ℚ
  date : String
deriving DecidableEq, BEq, Repr, Inhabited

/-- The score dictionary synthesized by analyze_sentiment_from_rating: the
chosen label receives the confidence, the other two share the remainder
equally. -/
def ratingScores (s : SLabel) (confidence : ℚ) : List (SLabel × ℚ) :=
  [(SLabel.positive, if s = SLabel.positive then confidence else (1 - confidence) / 2),
   (SLabel.neutral, if s = SLabel.neutral then confidence else (1 - confidence) / 2),
   (SLabel.negative, if s = SLabel.negative then confidence else (1 - confidence) / 2)]

/-- Result record of the rating-based sentiment rule. -/
structure RatingSentiment where
  sentiment : Option SLabel
  confidence : ℚ
  scores : List (SLabel × ℚ)
  analysis_method : String
deriving DecidableEq, BEq, Repr, Inhabited

/-- analyze_sentiment_from_rating: rating is None yields no sentiment with
confidence 0 and method "none"; otherwise rating <= 2 is negative with
confidence 0.8 + (2 - rating) * 0.1, rating == 3 is neutral with
confidence 0.7, anything else is positive with confidence
0.7 + (rating - 4) * 0.2. -/
def analyze_sentiment_from_rating : Option ℚ → RatingSentiment
  | none =>
    { sentiment := none, confidence := 0, scores := [], analysis_method := "none" }
  | some r =>
    if r ≤ 2 then
      { sentiment := some SLabel.negative, confidence := 0.8 + (2 - r) * 0.1,
        scores := ratingScores SLabel.negative (0.8 + (2 - r) * 0.1),
        analysis_method := "rating" }
    else if r = 3 then
      { sentiment := some SLabel.neutral, confidence := 0.7,
        scores := ratingScores SLabel.neutral 0.7, analysis_method := "rating" }
    else
      { sentiment := some SLabel.positive, confidence := 0.7 + (r - 4) * 0.2,
        scores := ratingScores SLabel.positive (0.7 + (r - 4) * 0.2),
        analysis_method := "rating" }

/-- Look up one label's score in a score dictionary (0 when absent). -/
def scoreOf (scores : List (SLabel × ℚ)) (lab : SLabel) : ℚ :=
  ((scores.find? (fun p => p.1 == lab)).map Prod.snd).getD 0

/-- Outcome of analyze_sentiment on non-empty text: the transformer
collaborator's prediction mapped onto the canonical labels (sentiment is
none when the model is unavailable, neutral with confidence 0 on an
internal exception, following the source's fallbacks). -/
structure TextSentiment where
  sentiment : Option SLabel
  confidence : ℚ
  scores : List (SLabel × ℚ)
  error : Option String
deriving DecidableEq, BEq, Repr, Inhabited

/-- A review together with the enrichment fields added by
analyze_reviews_batch. -/
structure EnrichedReview where
  review : Review
  sentiment : Option SLabel
  sentiment_confidence : Option ℚ
  sentiment_scores : List (SLabel × ℚ)
  sentiment_error : Option String
  sentiment_method : String
deriving DecidableEq, BEq, Repr, Inhabited

/-- The enrichment stored when a review has neither text nor rating:
sentiment and confidence are both null, the method is "none" and an
explanatory note is recorded in sentiment_error. -/
def noSentimentEnrichment (r : Review) : EnrichedReview :=
  { review := r, sentiment := none, sentiment_confidence := none, sentiment_scores := [],
    sentiment_error := some "No text or rating to analyze", sentiment_method := "none" }

/-- analyze_reviews_batch: per review, analyze the stripped text when it is
non-empty (method "text"), else fall back to the rating rule (method
"rating"), else store the null enrichment (method "none").  `analyzeText`
is the text-model collaborator. -/
def analyze_reviews_batch (analyzeText : String → TextSentiment) (reviews : List Review) :
    List EnrichedReview :=
  reviews.map (fun r =>
    let t := pyStrip r.text
    if t ≠ "" then
      let res := analyzeText t
      { review := r, sentiment := res.sentiment, sentiment_confidence := some res.confidence,
        sentiment_scores := res.scores, sentiment_error := res.error,
        sentiment_method := "text" }
    else
      match r.rating with
      | some rat =>
        let res := analyze_sentiment_from_rating (some rat)
        { review := r, sentiment := res.sentiment,
          sentiment_confidence := some res.confidence, sentiment_scores := res.scores,
          sentiment_error := none, sentiment_method := "rating" }
      | none => noSentimentEnrichment r)

/-- Aggregate record returned by get_sentiment_summary. -/
structure SentimentSummary where
  total_reviews : Nat
  analyzed_reviews : Nat
  positive : Nat
  negative : Nat
  neutral : Nat
  no_text : Nat
  positive_percentage : ℚ
  negative_percentage : ℚ
  neutral_percentage : ℚ
  average_confidence : ℚ
deriving DecidableEq, BEq, Repr, Inhabited

/-- Python truthiness of the stored confidence: null and 0.0 are falsy. -/
def truthyConfidence (q : Option ℚ) : Bool :=
  match q with
  | none => false
  | some x => !(x == 0)

/-- The analyzed subset: reviews whose sentiment is present. -/
def analyzedOf (reviews : List EnrichedReview) : List EnrichedReview :=
  reviews.filter (fun r => r.sentiment.isSome)

/-- The no-text subset: reviews whose sentiment is absent. -/
def noTextOf (reviews : List EnrichedReview) : List EnrichedReview :=
  reviews.filter (fun r => r.sentiment.isNone)

/-- The confidences entering the mean: those of the analyzed reviews with
truthy stored confidence. -/
def confidencesOf (reviews : List EnrichedReview) : List ℚ :=
  ((analyzedOf reviews).filter (fun r => truthyConfidence r.sentiment_confidence)).map
    (fun r => r.sentiment_confidence.getD 0)

/-- How many analyzed reviews carry one given label. -/
def sentimentCount (lab : SLabel) (reviews : List EnrichedReview) : Nat :=
  ((analyzedOf reviews).filter (fun r => r.sentiment == some lab)).length

/-- The percentage of one label among the analyzed subset. -/
def labelPercentage (lab : SLabel) (reviews : List EnrichedReview) : ℚ :=
  if 0 < (analyzedOf reviews).length then
    round1 (((sentimentCount lab reviews : ℚ) / ((analyzedOf reviews).length : ℚ)) * 100)
  else 0

/-- get_sentiment_summary: partition into analyzed (sentiment present) and
no-text reviews; percentages are over the analyzed subset only, and the
mean confidence is over the analyzed reviews with truthy confidence. -/
def get_sentiment_summary (reviews : List EnrichedReview) : SentimentSummary :=
  if reviews.isEmpty then
    { total_reviews := 0, analyzed_reviews := 0, positive := 0, negative := 0, neutral := 0,
      no_text := 0, positive_percentage := 0, negative_percentage := 0,
      neutral_percentage := 0, average_confidence := 0 }
  else
    { total_reviews := reviews.length, analyzed_reviews := (analyzedOf reviews).length,
      positive := sentimentCount SLabel.positive reviews,
      negative := sentimentCount SLabel.negative reviews,
      neutral := sentimentCount SLabel.neutral reviews,
      no_text := (noTextOf reviews).length,
      positive_percentage := labelPercentage SLabel.positive reviews,
      negative_percentage := labelPercentage SLabel.negative reviews,
      neutral_percentage := labelPercentage SLabel.neutral reviews,
      average_confidence :=
        if (confidencesOf reviews).isEmpty then 0
        else round2 ((confidencesOf reviews).sum / ((confidencesOf reviews).length : ℚ)) }

/-! ## Keyword analyzer (app/services/keyword_analyzer.py)

The category dictionary is admin-managed reference data loaded from the
database; it is modelled as an association list in insertion order, one
entry per category key, with per-language weighted keyword lists. -/

/-- The three languages the analyzer distinguishes. -/
inductive Lang
  | es
  | fr
  | en
deriving DecidableEq, BEq, Repr, Inhabited

/-- Spanish indicator words from _detect_language. -/
def spanishWords : List String :=
  ["el", "la", "de", "que", "y", "es", "en", "un", "una", "con", "muy", "bien", "está",
   "camping"]

/-- French indicator words from _detect_language. -/
def frenchWords : List String :=
  ["le", "de", "et", "à", "un", "une", "dans", "pour", "avec", "très", "bien", "est",
   "camping"]

/-- English indicator words from _detect_language. -/
def englishWords : List String :=
  ["the", "and", "of", "to", "a", "in", "is", "it", "you", "that", "he", "was", "for",
   "camping"]

/-- Number of words of `ws` occurring as substrings of the (already
lowercased) text, each counted at most once. -/
def indicatorCount (ws : List String) (textLower : String) : Nat :=
  (ws.filter (fun w => strContains textLower w)).length

/-- The indicator list of one language. -/
def wordsFor : Lang → List String
  | Lang.es => spanishWords
  | Lang.fr => frenchWords
  | Lang.en => englishWords

/-- Indicator count of one language against the lowercased text. -/
def langCount (l : Lang) (text : String) : Nat :=
  indicatorCount (wordsFor l) (strLower text)

/-- _detect_language: empty text defaults to English; otherwise pick the
first language, in the fixed order es, fr, en, whose count attains the
maximum, and fall back to English when that maximum is zero. -/
def detectLanguage (text : String) : Lang :=
  if text = "" then Lang.en
  else
    let s := langCount Lang.es text
    let f := langCount Lang.fr text
    let e := langCount Lang.en text
    let m := max s (max f e)
    let detected := if s = m then Lang.es else if f = m then Lang.fr else Lang.en
    if 0 < m then detected else Lang.en

/-- One weighted dictionary keyword. -/
structure KwEntry where
  keyword : String
  weight : ℚ
deriving DecidableEq, BEq, Repr, Inhabited

/-- One category of the admin-managed dictionary: localized display names,
icon/color metadata and per-language keyword lists. -/
structure CategoryData where
  name_en : String
  name_es : String
  name_fr : String
  icon : String
  color : String
  kw_en : List KwEntry
  kw_es : List KwEntry
  kw_fr : List KwEntry
deriving DecidableEq, BEq, Repr, Inhabited

/-- The keyword list of one category for one language. -/
def kwFor (c : CategoryData) : Lang → List KwEntry
  | Lang.en => c.kw_en
  | Lang.es => c.kw_es
  | Lang.fr => c.kw_fr

/-- The localized display name of one category. -/
def nameFor (c : CategoryData) : Lang → String
  | Lang.en => c.name_en
  | Lang.es => c.name_es
  | Lang.fr => c.name_fr

/-- The loaded dictionary: category key to category data, in insertion
order, keys unique (they are a database primary key). -/
abbrev Dictionary := List (String × CategoryData)

/-- One category's entry in the categorize_keywords result. -/
structure CatMatch where
  category_name : String
  icon : String
  color : String
  keywords_found : List KwEntry
  total_weight : ℚ
  confidence : ℚ
deriving DecidableEq, BEq, Repr, Inhabited

/-- The combined lowercased matching text: the review text and the
already-extracted keywords joined with spaces. -/
def allTextOf (keywords : List String) (text : String) : String :=
  strLower (text ++ " " ++ String.intercalate " " keywords)

/-- The category keywords that occur in the matching text, stored
lowercased with their weights, in dictionary order. -/
def foundKeywords (ks : List KwEntry) (allText : String) : List KwEntry :=
  ks.filterMap (fun k =>
    if strContains allText (strLower k.keyword) then
      some { keyword := strLower k.keyword, weight := k.weight }
    else none)

/-- Sum of the weights of a keyword list (the raw float accumulator). -/
def rawWeight (ks : List KwEntry) : ℚ := (ks.map (fun k => k.weight)).sum

/-- The result entry built for a category with a non-empty match list:
name localized with English fallback, total_weight rounded to two
decimals, confidence = raw total weight / number of matched keywords,
capped at 1.0. -/
def mkCatMatch (c : CategoryData) (lang : Lang) (fks : List KwEntry) : CatMatch :=
  { category_name := if nameFor c lang = "" then c.name_en else nameFor c lang,
    icon := c.icon, color := c.color, keywords_found := fks,
    total_weight := round2 (rawWeight fks),
    confidence := if fks.isEmpty then 0 else min (rawWeight fks / (fks.length : ℚ)) 1 }

/-- The language categorize_keywords ends up matching with: the explicit
argument when one of es/en/fr is passed, otherwise (language="auto") the
detected language of the combined text.  (An explicit string outside
es/en/fr is normalized to English by the source; such garbage strings are
not representable here.) -/
def resolvedLang (keywords : List String) (text : String) : Option Lang → Lang
  | some l => l
  | none => detectLanguage (text ++ " " ++ String.intercalate " " keywords)

/-- categorize_keywords: with an empty dictionary the result is empty;
otherwise every category with at least one keyword (for the resolved
language) occurring in the combined lowercased text contributes an entry,
and the entries are sorted by descending total_weight (stable, mirroring
Python's stable sorted()). -/
def categorize_keywords (dict : Dictionary) (keywords : List String) (text : String)
    (language : Option Lang) : List (String × CatMatch) :=
  if dict.isEmpty then []
  else
    (dict.filterMap (fun kv =>
      if (foundKeywords (kwFor kv.2 (resolvedLang keywords text language))
            (allTextOf keywords text)).isEmpty then none
      else
        some (kv.1,
          mkCatMatch kv.2 (resolvedLang keywords text language)
            (foundKeywords (kwFor kv.2 (resolvedLang keywords text language))
              (allTextOf keywords text))))).mergeSort
      (fun a b => decide (b.2.total_weight ≤ a.2.total_weight))

/-! ## Summarizer (app/services/summarizer.py)

The BART pipeline is an external collaborator.  `model` is the summarizer
state after the lazy first-use load attempt: none when loading failed.
The loaded pipeline is a function of the max_length and min_length bounds
passed to it and the text; it returns none when it raises or produces no
result. -/

/-- Summarizer service state and configuration. -/
structure Summarizer where
  model : Option (Nat → Nat → String → Option String)
  min_review_length : Nat
  max_length : Nat
  min_length : Nat

/-- The configuration set in ReviewSummarizer.__init__. -/
def mkSummarizer (model : Option (Nat → Nat → String → Option String)) : Summarizer :=
  { model := model, min_review_length := 150, max_length := 100, min_length := 30 }

/-- should_summarize: the stripped text is strictly longer than the
minimum review length (150). -/
def should_summarize (s : Summarizer) (text : String) : Bool :=
  s.min_review_length < (pyStrip text).length

/-- summarize_review: none when the model is unavailable, the text is at
or below the threshold, or the stripped text is shorter than min_length;
otherwise the pipeline's output for the configured length bounds (none
when the pipeline raises). -/
def summarize_review (s : Summarizer) (review_text : String) : Option String :=
  match s.model with
  | none => none
  | some f =>
    if ¬ should_summarize s review_text then none
    else
      let text := pyStrip review_text
      if text.length < s.min_length then none
      else f s.max_length s.min_length text

/-- summarize_reviews_batch: tag each review with its summary (if any) and
has_summary; short reviews are tagged (none, false) without touching the
model. -/
def summarize_reviews_batch (s : Summarizer) (reviews : List Review) :
    List (Review × Option String × Bool) :=
  reviews.map (fun r =>
    if should_summarize s r.text then
      let summary := summarize_review s r.text
      (r, summary, summary.isSome)
    else (r, none, false))

/-! ## Deduplicating save paths
(app/services/scraping_service.py save_scraping_results and
app/inngest/functions.py save_step)

The relational store is modelled as the list of persisted review rows in
insertion order. -/

/-- Python str() of the optional rating as interpolated into the
PostgreSQL-path content string: None renders as "None", integer-valued
ratings as their integer literal.  (Non-integer float ratings render as
decimals in Python; the placeholder rendering here differs, and no
theorem below evaluates it.) -/
def pyRatingStr : Option ℚ → String
  | none => "None"
  | some q => if q.den = 1 then toString q.num else toString q.num ++ "/" ++ toString q.den

/-- The PostgreSQL-path fingerprint of save_scraping_results: the full md5
hex digest of author-text-rating-platform, dash-joined, where platform is
the platform of the result batch being saved. -/
def fingerprintFull (platform : String) (r : Review) : String :=
  md5Hex (r.author ++ "-" ++ r.text ++ "-" ++ pyRatingStr r.rating ++ "-" ++ platform)

/-- The Supabase-path and background-save fingerprint: the first 16 hex
characters of the md5 digest of the review text alone. -/
def fingerprintText (text : String) : String := (md5Hex text).take 16

/-- The content-derived review identifier, platform prefix plus hash. -/
def reviewIdOf (platform hash : String) : String := platform ++ "_" ++ hash

/-- One persisted review row (the columns the claims are about). -/
structure SRow where
  review_hash : String
  review_id : String
  job_id : Nat
  platform : String
  text : String
  rating : Option ℚ
deriving DecidableEq, BEq, Repr, Inhabited

/-- The pre-insert existence check: some persisted row already carries
this hash. -/
def existsByHash (db : List SRow) (h : String) : Bool :=
  db.any (fun row => row.review_hash == h)

/-- Number of persisted rows carrying a given hash. -/
def countHash (db : List SRow) (h : String) : Nat :=
  db.countP (fun row => row.review_hash == h)

/-- State threaded through the background save step: the persisted rows
plus the saved/skipped counters it logs. -/
structure SaveState where
  db : List SRow
  saved : Nat
  skipped : Nat
deriving DecidableEq, BEq, Repr, Inhabited

/-- The row inserted by the background save step for a new review. -/
def saveStepRow (jobId : Nat) (r : Review) : SRow :=
  { review_hash := fingerprintText r.text,
    review_id := reviewIdOf r.platform (fingerprintText r.text), job_id := jobId,
    platform := r.platform, text := r.text, rating := r.rating }

/-- Modelled from the spec: db.save_review of app/core/database.py, which
is not under the source tree (only its callers are).  It is the storage
collaborator's insert operation — the spec's section 6 storage contract
is insertReview(review) -> id, a plain insert, and section 4.4 places the
duplicate-existence check in the caller — so it appends the review's row
unconditionally. -/
def save_review (jobId : Nat) (r : Review) (db : List SRow) : List SRow :=
  db ++ [saveStepRow jobId r]

/-- save_step of app/inngest/functions.py: each review's hash is the
text-only fingerprint.  The duplicate-existence check is guarded by
database.is_supabase(): only when the database collaborator is Supabase
is the hash looked up, and a review whose hash already has a persisted
row is then skipped and counted; in every other case (including the
non-Supabase mode, which performs no check at all) the review is
inserted via save_review and counted as saved.  Vector indexing is
best-effort and affects neither the rows nor the counters, and the
per-review exception guard only logs, so neither appears in the state. -/
def save_step (isSupabase : Bool) (jobId : Nat) (reviews : List Review) (st : SaveState) :
    SaveState :=
  reviews.foldl (fun st r =>
    if isSupabase && existsByHash st.db (fingerprintText r.text) then
      { st with skipped := st.skipped + 1 }
    else
      { st with db := save_review jobId r st.db, saved := st.saved + 1 }) st

/-- The row inserted by the Supabase branch of save_scraping_results
(platform is the platform of the result batch). -/
def supabaseRow (jobId : Nat) (platform : String) (r : Review) : SRow :=
  { review_hash := fingerprintText r.text,
    review_id := reviewIdOf platform (fingerprintText r.text), job_id := jobId,
    platform := platform, text := r.text, rating := r.rating }

/-- The per-review persistence loop of the Supabase branch of
save_scraping_results: reviews with falsy text are skipped outright
(before hashing); otherwise the text-only fingerprint is checked against
the persisted rows and the review is inserted only when no row carries
it. -/
def save_supabase_reviews (jobId : Nat) (platform : String) (reviews : List Review)
    (db : List SRow) : List SRow :=
  reviews.foldl (fun db r =>
    if r.text = "" then db
    else if existsByHash db (fingerprintText r.text) then db
    else db ++ [supabaseRow jobId platform r]) db

/-- The row inserted by the PostgreSQL branch of save_scraping_results:
hash over author-text-rating-platform, review id from its first 16 hex
characters. -/
def pgRow (jobId : Nat) (platform : String) (r : Review) : SRow :=
  { review_hash := fingerprintFull platform r,
    review_id := reviewIdOf platform ((fingerprintFull platform r).take 16), job_id := jobId,
    platform := platform, text := r.text, rating := r.rating }

/-- The per-review persistence loop of the PostgreSQL branch of
save_scraping_results: the full-content fingerprint is computed once per
review and used both for the existence check and as the inserted row's
hash. -/
def save_pg_reviews (jobId : Nat) (platform : String) (reviews : List Review)
    (db : List SRow) : List SRow :=
  reviews.foldl (fun db r =>
    if existsByHash db (fingerprintFull platform r) then db
    else db ++ [pgRow jobId platform r]) db

/-! ## Scraping job orchestration
(app/services/scraping_service.py process_scraping_job)

The per-platform network work (Google Places lookup, HeadlessX scraping)
is an external collaborator, modelled as a function from platform to
outcome: a returned data dictionary (which may itself carry an error note
and no reviews, and is still recorded with status "success"), or a raised
exception.  The save and statistics collaborators are modelled as healthy:
save_scraping_results swallows its own exceptions in the source, and an
exception escaping the later steps is the only other route to the outer
failure guard. -/

/-- The dictionary a platform scrape/lookup returns: its reviews and an
optional error note. -/
structure ScrapeData where
  reviews : List Review
  error : Option String
deriving DecidableEq, BEq, Repr, Inhabited

/-- Outcome of processing one platform: a returned dictionary or a raised
exception. -/
inductive PlatformFetch
  | ok (data : ScrapeData)
  | exn (msg : String)
deriving DecidableEq, BEq, Repr, Inhabited

/-- One entry of the per-platform results list. -/
structure PlatformResult where
  platform : String
  status : String
  data : Option ScrapeData
  error : Option String
deriving DecidableEq, BEq, Repr, Inhabited

/-- The status string recorded for a platform outcome. -/
def statusOf : PlatformFetch → String
  | PlatformFetch.ok _ => "success"
  | PlatformFetch.exn _ => "error"

/-- The results-list entry recorded for one platform. -/
def platformResultOf (p : String) (f : PlatformFetch) : PlatformResult :=
  match f with
  | PlatformFetch.ok d => { platform := p, status := "success", data := some d, error := none }
  | PlatformFetch.exn e => { platform := p, status := "error", data := none, error := some e }

/-- The observable outcome of one job run: the per-platform results, the
reviews collected for the statistics, and the job's final status with its
message. -/
structure JobRun where
  results : List PlatformResult
  allReviews : List Review
  finalStatus : String
  statusMessage : Option String
deriving DecidableEq, BEq, Repr, Inhabited

/-- detect_platform_from_url: fixed substring patterns on the lowercased
URL. -/
def detect_platform_from_url (url : String) : String :=
  let ul := strLower url
  if strContains ul "tripadvisor" then "tripadvisor"
  else if strContains ul "google.com" && strContains ul "reviews" then "google"
  else if strContains ul "booking.com" then "booking"
  else "unknown"

/-- The reviews gathered for the job statistics: those of every result
with status "success" and a data dictionary. -/
def collectReviews (results : List PlatformResult) : List Review :=
  results.foldl (fun acc r =>
    if r.status = "success" then
      acc ++ (r.data.map (fun d => d.reviews)).getD []
    else acc) []

/-- The platform loop and the job finalization: with no platforms the job
fails; otherwise every platform is processed independently (a raised
exception is recorded as that platform's error entry and the loop
continues), the results are saved, and the job is marked completed. -/
def runPlatforms (platforms : List String) (fetch : String → PlatformFetch) : JobRun :=
  if platforms.isEmpty then
    { results := [{ platform := "none", status := "error",
                    data := some { reviews := [], error := some "No platforms selected" },
                    error := none }],
      allReviews := [], finalStatus := "failed",
      statusMessage := some "No platforms selected" }
  else
    let results := platforms.map (fun p => platformResultOf p (fetch p))
    { results := results, allReviews := collectReviews results,
      finalStatus := "completed", statusMessage := none }

/-- process_scraping_job: in url mode the platform is inferred from the
URL and an unrecognized URL fails the job; then the platform loop runs
and the job completes. -/
def process_scraping_job (searchType query : String) (platforms : List String)
    (fetch : String → PlatformFetch) : JobRun :=
  if searchType = "url" then
    let dp := detect_platform_from_url query
    if dp = "unknown" then
      { results := [{ platform := "unknown", status := "error",
                      data := some { reviews := [],
                                     error := some "Could not detect platform from URL" },
                      error := none }],
        allReviews := [], finalStatus := "failed",
        statusMessage := some "Could not detect platform from URL" }
    else runPlatforms [dp] fetch
  else runPlatforms platforms fetch

/-! ## Vector service (app/services/vector_service.py)

The Qdrant collection is modelled as the list of stored points; upsert
replaces the payload of an existing point id and appends otherwise.
`pyhash` models Python's builtin hash() on strings, which is keyed by a
per-process random secret (hash randomization, PYTHONHASHSEED): within
one process it is one fixed function, but different processes realize
different functions.  `embed` models the sentence-transformer encoder;
the empty list models an embedding failure. -/

/-- One stored vector point (the payload fields the claims are about). -/
structure VPoint where
  id : Nat
  review_id : String
  text : String
deriving DecidableEq, BEq, Repr, Inhabited

/-- The point id derived in add_review: abs(hash(review_id)) % 10^10. -/
def pointIdOf (pyhash : String → Int) (rid : String) : Nat :=
  (pyhash rid).natAbs % (10 ^ 10)

/-- Qdrant upsert of a single point: overwrite the point with the same id
if present, append otherwise. -/
def upsertPoint (col : List VPoint) (p : VPoint) : List VPoint :=
  if col.any (fun q => q.id == p.id) then
    col.map (fun q => if q.id == p.id then p else q)
  else col ++ [p]

/-- add_review: embed the text (failure aborts with false), derive the
point id from the review id via the process hash, and upsert. -/
def add_review (pyhash : String → Int) (embed : String → List ℚ) (rid text : String)
    (col : List VPoint) : Bool × List VPoint :=
  let e := embed text
  if e.isEmpty then (false, col)
  else (true, upsertPoint col { id := pointIdOf pyhash rid, review_id := rid, text := text })

/-- A rational that is an exact multiple of one hundredth (what a
two-decimal database weight denotes); round2 is the identity on these. -/
def centExact (q : ℚ) : Prop := ∃ n : ℤ, (n : ℚ) = q * 100

/-- A demo category with two weighted English keywords, for instantiating
the categorization theorems. -/
def demoConnectivity : CategoryData :=
  { name_en := "Connectivity", name_es := "Conectividad", name_fr := "Connectivite",
    icon := "wifi-icon", color := "#0000FF",
    kw_en := [{ keyword := "wifi", weight := 1 }, { keyword := "signal", weight := 0.5 }],
    kw_es := [], kw_fr := [] }

/-- A second demo category, for instantiating the categorization
theorems. -/
def demoCleanliness : CategoryData :=
  { name_en := "Cleanliness", name_es := "Limpieza", name_fr := "Proprete",
    icon := "spark-icon", color := "#00FF00",
    kw_en := [{ keyword := "clean", weight := 0.8 }, { keyword := "pool", weight := 0.7 }],
    kw_es := [], kw_fr := [] }

/-- A two-category demo dictionary used to instantiate the
categorization theorems on concrete data. -/
def demoDict : Dictionary :=
  [("connectivity", demoConnectivity), ("cleanliness", demoCleanliness)]

/-- A summarizer whose model collaborator is loaded and always returns a
two-character summary, for instantiating the summarizer theorems. -/
def demoSummarizer : Summarizer := mkSummarizer (some (fun _ _ _ => some "ok"))

/-- A short concrete review, for instantiating theorems. -/
def demoShortReview : Review :=
  { platform := "google", author := "Ann", text := "short", rating := none, date := "" }

/-- A concrete rating-only review with empty text, for instantiating
theorems. -/
def demoEmptyTextReview : Review :=
  { platform := "google", author := "Ann", text := "", rating := some 5, date := "" }

/-- A concrete rated review with text, for instantiating theorems. -/
def demoRatedReview : Review :=
  { platform := "google", author := "Ann", text := "ok", rating := some 5, date := "" }

/-- A concrete review with neither text nor rating, for instantiating
theorems. -/
def demoBareReview : Review :=
  { platform := "google", author := "Ann", text := "", rating := none, date := "" }

/-- The fixed tie-breaking priority of _detect_language: Spanish before
French before English (the iteration order of the counts dictionary). -/
def langPrio : Lang → Nat
  | Lang.es => 0
  | Lang.fr => 1
  | Lang.en => 2

/-! ## Theorems -/

/-- Unfold detectLanguage on non-empty text. -/
theorem detectLanguage_cases (text : String) (h : ¬ text = "") :
    detectLanguage text
      = if 0 < max (langCount Lang.es text)
              (max (langCount Lang.fr text) (langCount Lang.en text)) then
          (if langCount Lang.es text
              = max (langCount Lang.es text)
                  (max (langCount Lang.fr text) (langCount Lang.en text))
           then Lang.es
           else if langCount Lang.fr text
              = max (langCount Lang.es text)
                  (max (langCount Lang.fr text) (langCount Lang.en text))
           then Lang.fr else Lang.en)
        else Lang.en := by
  simp only [detectLanguage]
  rw [if_neg h]

/-- Unfolded result of the score dictionary lookup: the chosen label
carries the confidence, every other label carries half the remainder. -/
theorem scoreOf_ratingScores (s lab : SLabel) (c : ℚ) :
    scoreOf (ratingScores s c) lab = if s = lab then c else (1 - c) / 2 := by
  cases s <;> cases lab <;> rfl

/-- C3: for every star rating in the 0-5 range, the rating rule labels
ratings at most 2 negative, exactly 3 neutral and at least 4 positive;
confidence at rating 1 dominates rating 2 and rating 5 dominates rating
4; confidence never exceeds 1; and the synthesized score distribution
gives the chosen label the confidence and each other label half of the
remainder. -/
theorem rating_sentiment_spec (r : ℚ) (h0 : 0 ≤ r) (h5 : r ≤ 5) :
    ((r ≤ 2 → (analyze_sentiment_from_rating (some r)).sentiment = some SLabel.negative)
      ∧ (r = 3 → (analyze_sentiment_from_rating (some r)).sentiment = some SLabel.neutral)
      ∧ (4 ≤ r → (analyze_sentiment_from_rating (some r)).sentiment = some SLabel.positive))
    ∧ (analyze_sentiment_from_rating (some 2)).confidence
        ≤ (analyze_sentiment_from_rating (some 1)).confidence
    ∧ (analyze_sentiment_from_rating (some 4)).confidence
        ≤ (analyze_sentiment_from_rating (some 5)).confidence
    ∧ (analyze_sentiment_from_rating (some r)).confidence ≤ 1
    ∧ (∀ lab : SLabel, (analyze_sentiment_from_rating (some r)).sentiment = some lab →
        scoreOf (analyze_sentiment_from_rating (some r)).scores lab
          = (analyze_sentiment_from_rating (some r)).confidence)
    ∧ (∀ lab : SLabel, (analyze_sentiment_from_rating (some r)).sentiment ≠ some lab →
        scoreOf (analyze_sentiment_from_rating (some r)).scores lab
          = (1 - (analyze_sentiment_from_rating (some r)).confidence) / 2) := by
  have hmono12 : (analyze_sentiment_from_rating (some 2)).confidence
      ≤ (analyze_sentiment_from_rating (some 1)).confidence := by
    norm_num [analyze_sentiment_from_rating]
  have hmono45 : (analyze_sentiment_from_rating (some 4)).confidence
      ≤ (analyze_sentiment_from_rating (some 5)).confidence := by
    norm_num [analyze_sentiment_from_rating]
  by_cases h2 : r ≤ 2
  · have hr : analyze_sentiment_from_rating (some r)
        = { sentiment := some SLabel.negative, confidence := 0.8 + (2 - r) * 0.1,
            scores := ratingScores SLabel.negative (0.8 + (2 - r) * 0.1),
            analysis_method := "rating" } := by
      simp [analyze_sentiment_from_rating, h2]
    refine ⟨⟨fun _ => by rw [hr], fun h3 => by exfalso; rw [h3] at h2; norm_num at h2,
      fun h4 => by exfalso; linarith⟩, hmono12, hmono45, ?_, ?_, ?_⟩
    · rw [hr]; simp only; linarith
    · intro lab hlab
      rw [hr] at hlab ⊢
      simp only [Option.some.injEq] at hlab
      simp [scoreOf_ratingScores, hlab]
    · intro lab hlab
      rw [hr] at hlab ⊢
      simp only [ne_eq, Option.some.injEq] at hlab
      rw [scoreOf_ratingScores, if_neg hlab]
  · by_cases h3 : r = 3
    · have hr : analyze_sentiment_from_rating (some r)
          = { sentiment := some SLabel.neutral, confidence := 0.7,
              scores := ratingScores SLabel.neutral 0.7,
              analysis_method := "rating" } := by
        subst h3; norm_num [analyze_sentiment_from_rating]
      refine ⟨⟨fun h => absurd h h2, fun _ => by rw [hr],
        fun h4 => by exfalso; rw [h3] at h4; norm_num at h4⟩,
        hmono12, hmono45, ?_, ?_, ?_⟩
      · rw [hr]; norm_num
      · intro lab hlab
        rw [hr] at hlab ⊢
        simp only [Option.some.injEq] at hlab
        simp [scoreOf_ratingScores, hlab]
      · intro lab hlab
        rw [hr] at hlab ⊢
        simp only [ne_eq, Option.some.injEq] at hlab
        rw [scoreOf_ratingScores, if_neg hlab]
    · have hr : analyze_sentiment_from_rating (some r)
          = { sentiment := some SLabel.positive, confidence := 0.7 + (r - 4) * 0.2,
              scores := ratingScores SLabel.positive (0.7 + (r - 4) * 0.2),
              analysis_method := "rating" } := by
        simp [analyze_sentiment_from_rating, h2, h3]
      refine ⟨⟨fun h => absurd h h2, fun h => absurd h h3, fun _ => by rw [hr]⟩,
        hmono12, hmono45, ?_, ?_, ?_⟩
      · rw [hr]; simp only; linarith
      · intro lab hlab
        rw [hr] at hlab ⊢
        simp only [Option.some.injEq] at hlab
        simp [scoreOf_ratingScores, hlab]
      · intro lab hlab
        rw [hr] at hlab ⊢
        simp only [ne_eq, Option.some.injEq] at hlab
        rw [scoreOf_ratingScores, if_neg hlab]

/-- Witness instantiating rating_sentiment_spec at rating 1. -/
theorem rating_sentiment_witness :
    (0 : ℚ) ≤ 1 ∧ (1 : ℚ) ≤ 5
      ∧ (analyze_sentiment_from_rating (some 1)).sentiment = some SLabel.negative
      ∧ (analyze_sentiment_from_rating (some 1)).confidence ≤ 1 :=
  ⟨by norm_num, by norm_num,
   (rating_sentiment_spec 1 (by norm_num) (by norm_num)).1.1 (by norm_num),
   (rating_sentiment_spec 1 (by norm_num) (by norm_num)).2.2.2.1⟩

/-- C7: language detection counts the fixed indicator-word lists in the
lowercased text; the detected language attains the maximal count; when
all three counts are zero (in particular for empty text) it returns
English; and among the languages tied at a positive maximal count it
returns the first in the fixed priority order es, fr, en. -/
theorem detect_language_spec (text : String) :
    (∀ l : Lang, langCount l text ≤ langCount (detectLanguage text) text)
    ∧ ((∀ l : Lang, langCount l text = 0) → detectLanguage text = Lang.en)
    ∧ detectLanguage "" = Lang.en
    ∧ (0 < langCount (detectLanguage text) text →
        ∀ l : Lang, langCount l text = langCount (detectLanguage text) text →
          langPrio (detectLanguage text) ≤ langPrio l) := by
  by_cases htext : text = ""
  · subst htext
    have hz : ∀ l : Lang, langCount l "" = 0 := by
      intro l
      cases l <;> decide
    refine ⟨fun l => by rw [hz l]; exact Nat.zero_le _, fun _ => rfl, rfl, ?_⟩
    intro hpos
    rw [show detectLanguage "" = Lang.en from rfl, hz Lang.en] at hpos
    exact absurd hpos (by norm_num)
  · have hchar := detectLanguage_cases text htext
    set s := langCount Lang.es text with hs_def
    set f := langCount Lang.fr text with hf_def
    set e := langCount Lang.en text with he_def
    have hle1 : s ≤ max s (max f e) := Nat.le_max_left _ _
    have hle2 : f ≤ max s (max f e) :=
      Nat.le_trans (Nat.le_max_left _ _) (Nat.le_max_right _ _)
    have hle3 : e ≤ max s (max f e) :=
      Nat.le_trans (Nat.le_max_right _ _) (Nat.le_max_right _ _)
    have hattain : max s (max f e) = s ∨ max s (max f e) = f ∨ max s (max f e) = e := by
      rcases max_cases s (max f e) with ⟨h1, _⟩ | ⟨h1, _⟩
      · exact Or.inl h1
      · rcases max_cases f e with ⟨h2, _⟩ | ⟨h2, _⟩
        · exact Or.inr (Or.inl (h1.trans h2))
        · exact Or.inr (Or.inr (h1.trans h2))
    by_cases hpos : 0 < max s (max f e)
    · rw [if_pos hpos] at hchar
      by_cases hs : s = max s (max f e)
      · rw [if_pos hs] at hchar
        have hfs : f ≤ s := by rw [← hs] at hle2; exact hle2
        have hes : e ≤ s := by rw [← hs] at hle3; exact hle3
        refine ⟨?_, ?_, rfl, ?_⟩
        · intro l
          rw [hchar]
          cases l <;> [exact le_rfl; exact hfs; exact hes]
        · intro hall
          exfalso
          have h1 : s = 0 := hall Lang.es
          rw [← hs] at hpos
          omega
        · intro _ l _
          rw [hchar]
          cases l <;> decide
      · rw [if_neg hs] at hchar
        by_cases hf : f = max s (max f e)
        · rw [if_pos hf] at hchar
          have hsf : s ≤ f := by rw [← hf] at hle1; exact hle1
          have hef : e ≤ f := by rw [← hf] at hle3; exact hle3
          refine ⟨?_, ?_, rfl, ?_⟩
          · intro l
            rw [hchar]
            cases l <;> [exact hsf; exact le_rfl; exact hef]
          · intro hall
            exfalso
            have h2 : f = 0 := hall Lang.fr
            rw [← hf] at hpos
            omega
          · intro _ l hl
            rw [hchar] at hl ⊢
            cases l
            · exact absurd (hl.trans hf) hs
            · decide
            · decide
        · rw [if_neg hf] at hchar
          have he : e = max s (max f e) := by
            rcases hattain with h | h | h
            · exact absurd h.symm hs
            · exact absurd h.symm hf
            · exact h.symm
          have hse : s ≤ e := by rw [← he] at hle1; exact hle1
          have hfe : f ≤ e := by rw [← he] at hle2; exact hle2
          refine ⟨?_, fun _ => hchar, rfl, ?_⟩
          · intro l
            rw [hchar]
            cases l <;> [exact hse; exact hfe; exact le_rfl]
          · intro _ l hl
            rw [hchar] at hl ⊢
            cases l
            · exact absurd (hl.trans he) hs
            · exact absurd (hl.trans he) hf
            · decide
    · rw [if_neg hpos] at hchar
      have hm0 : max s (max f e) = 0 := by omega
      rw [hm0] at hle1 hle2 hle3
      refine ⟨?_, fun _ => hchar, rfl, ?_⟩
      · intro l
        rw [hchar]
        cases l <;> omega
      · intro hp l hl
        exfalso
        rw [hchar] at hp
        omega

/-- Witness instantiating detect_language_spec: on a text with no
indicator occurrences all counts are zero and English is returned. -/
theorem detect_language_witness : detectLanguage "zzz" = Lang.en :=
  (detect_language_spec "zzz").2.1 (fun l => by cases l <;> decide)

/-- C9: with the configured thresholds (150/100/30), a review whose
stripped text is at most 150 characters gets no summary and
has_summary = false for every summarizer state (so independently of the
model); a strictly longer review with a working model (one that returns
a summary within the requested maximum length on the calls actually
made) gets has_summary = true and a summary within the configured
100-length budget; an unavailable or failing model yields no summary
rather than an error; and the batch always returns one entry per
review. -/
theorem summarize_review_model_eq (s : Summarizer) (f : Nat → Nat → String → Option String)
    (rt : String) (hf : s.model = some f) (hss : should_summarize s rt = true)
    (hlen : s.min_length ≤ (pyStrip rt).length) :
    summarize_review s rt = f s.max_length s.min_length (pyStrip rt) := by
  unfold summarize_review
  rw [hf]
  simp [hss, Nat.not_lt.mpr hlen]

theorem summarizer_spec (s : Summarizer)
    (hcfg : s.min_review_length = 150 ∧ s.max_length = 100 ∧ s.min_length = 30)
    (r : Review) :
    ((pyStrip r.text).length ≤ 150 →
      ∀ s' : Summarizer, s'.min_review_length = 150 →
        summarize_reviews_batch s' [r] = [(r, none, false)])
    ∧ (∀ f, s.model = some f →
        (∀ t, ∃ o, f s.max_length s.min_length t = some o ∧ o.length ≤ s.max_length) →
        150 < (pyStrip r.text).length →
        ∃ o, summarize_reviews_batch s [r] = [(r, some o, true)] ∧ o.length ≤ 100)
    ∧ (s.model = none → summarize_reviews_batch s [r] = [(r, none, false)])
    ∧ (∀ f, s.model = some f → f s.max_length s.min_length (pyStrip r.text) = none →
        summarize_reviews_batch s [r] = [(r, none, false)])
    ∧ (∀ rs : List Review, (summarize_reviews_batch s rs).length = rs.length) := by
  obtain ⟨hmin, hmax, hminl⟩ := hcfg
  refine ⟨?_, ?_, ?_, ?_, ?_⟩
  · intro hlen s' h150
    have hss : should_summarize s' r.text = false := by
      simp only [should_summarize, h150, decide_eq_false_iff_not]
      omega
    simp [summarize_reviews_batch, hss]
  · intro f hf hwork hlen
    obtain ⟨o, ho, hlo⟩ := hwork (pyStrip r.text)
    have hss : should_summarize s r.text = true := by
      simp only [should_summarize, hmin, decide_eq_true_eq]
      exact hlen
    have h1 : summarize_review s r.text = some o := by
      rw [summarize_review_model_eq s f r.text hf hss (by omega), ho]
    refine ⟨o, ?_, by rw [hmax] at hlo; exact hlo⟩
    simp [summarize_reviews_batch, hss, h1]
  · intro hm
    by_cases hss : should_summarize s r.text
    · have h1 : summarize_review s r.text = none := by
        unfold summarize_review
        rw [hm]
      simp [summarize_reviews_batch, hss, h1]
    · simp [summarize_reviews_batch, hss]
  · intro f hf hfn
    by_cases hss : should_summarize s r.text
    · have hlen : 150 < (pyStrip r.text).length := by
        have h2 := hss
        simp only [should_summarize, hmin, decide_eq_true_eq] at h2
        exact h2
      have h1 : summarize_review s r.text = none := by
        rw [summarize_review_model_eq s f r.text hf hss (by omega), hfn]
      simp [summarize_reviews_batch, hss, h1]
    · simp [summarize_reviews_batch, hss]
  · intro rs
    simp [summarize_reviews_batch]

/-- Witness instantiating summarizer_spec: a 5-character review is tagged
(none, false) by the batch. -/
theorem summarizer_witness :
    demoSummarizer.min_review_length = 150
      ∧ summarize_reviews_batch demoSummarizer [demoShortReview]
          = [(demoShortReview, none, false)] :=
  ⟨rfl,
   (summarizer_spec demoSummarizer ⟨rfl, rfl, rfl⟩ demoShortReview).1 (by decide)
     demoSummarizer rfl⟩

/-- Appending one row changes a hash count by exactly its own match. -/
theorem countHash_append (db : List SRow) (row : SRow) (h : String) :
    countHash (db ++ [row]) h
      = countHash db h + (if row.review_hash == h then 1 else 0) := by
  simp [countHash, List.countP_append, List.countP_cons]

/-- The existence check is false exactly when no row carries the hash. -/
theorem existsByHash_false_iff (db : List SRow) (h : String) :
    existsByHash db h = false ↔ countHash db h = 0 := by
  simp [existsByHash, countHash, List.countP_eq_zero]

/-- The existence check is true exactly when some row carries the hash. -/
theorem existsByHash_true_iff (db : List SRow) (h : String) :
    existsByHash db h = true ↔ 0 < countHash db h := by
  simp [existsByHash, countHash, List.countP_pos_iff, List.any_eq_true]

/-- The hash of the row the background save step inserts. -/
theorem saveStepRow_hash (jobId : Nat) (r : Review) :
    (saveStepRow jobId r).review_hash = fingerprintText r.text := by
  simp only [saveStepRow]

/-- The hash of the row the Supabase save loop inserts. -/
theorem supabaseRow_hash (jobId : Nat) (platform : String) (r : Review) :
    (supabaseRow jobId platform r).review_hash = fingerprintText r.text := by
  simp only [supabaseRow]

/-- The text of the row the Supabase save loop inserts. -/
theorem supabaseRow_text (jobId : Nat) (platform : String) (r : Review) :
    (supabaseRow jobId platform r).text = r.text := by
  simp only [supabaseRow]

/-- Unfold the background save step, in Supabase mode, on a duplicate
head review. -/
theorem save_step_cons_skip (jobId : Nat) (r : Review) (rest : List Review) (st : SaveState)
    (hex : existsByHash st.db (fingerprintText r.text) = true) :
    save_step true jobId (r :: rest) st
      = save_step true jobId rest ⟨st.db, st.saved, st.skipped + 1⟩ := by
  rw [save_step, List.foldl_cons, if_pos (by rw [Bool.true_and]; exact hex)]
  rfl

/-- Unfold the background save step, in Supabase mode, on a fresh head
review. -/
theorem save_step_cons_insert (jobId : Nat) (r : Review) (rest : List Review) (st : SaveState)
    (hex : ¬ existsByHash st.db (fingerprintText r.text) = true) :
    save_step true jobId (r :: rest) st
      = save_step true jobId rest ⟨st.db ++ [saveStepRow jobId r], st.saved + 1, st.skipped⟩ := by
  rw [save_step, List.foldl_cons, if_neg (by rw [Bool.true_and]; exact hex)]
  rfl

/-- Unfold the background save step in non-Supabase mode: every head
review is inserted without any existence check. -/
theorem save_step_cons_nonsupabase (jobId : Nat) (r : Review) (rest : List Review)
    (st : SaveState) :
    save_step false jobId (r :: rest) st
      = save_step false jobId rest
          ⟨st.db ++ [saveStepRow jobId r], st.saved + 1, st.skipped⟩ := by
  rw [save_step, List.foldl_cons,
    if_neg (by rw [Bool.false_and]; exact Bool.false_ne_true)]
  rfl

/-- Unfold the Supabase save loop on an empty-text head review. -/
theorem save_supabase_cons_empty (jobId : Nat) (platform : String) (r : Review)
    (rest : List Review) (db : List SRow) (ht : r.text = "") :
    save_supabase_reviews jobId platform (r :: rest) db
      = save_supabase_reviews jobId platform rest db := by
  rw [save_supabase_reviews, List.foldl_cons, if_pos ht]
  rfl

/-- Unfold the Supabase save loop on a duplicate head review. -/
theorem save_supabase_cons_skip (jobId : Nat) (platform : String) (r : Review)
    (rest : List Review) (db : List SRow) (ht : ¬ r.text = "")
    (hex : existsByHash db (fingerprintText r.text) = true) :
    save_supabase_reviews jobId platform (r :: rest) db
      = save_supabase_reviews jobId platform rest db := by
  rw [save_supabase_reviews, List.foldl_cons, if_neg ht, if_pos hex]
  rfl

/-- Unfold the Supabase save loop on a fresh non-empty head review. -/
theorem save_supabase_cons_insert (jobId : Nat) (platform : String) (r : Review)
    (rest : List Review) (db : List SRow) (ht : ¬ r.text = "")
    (hex : ¬ existsByHash db (fingerprintText r.text) = true) :
    save_supabase_reviews jobId platform (r :: rest) db
      = save_supabase_reviews jobId platform rest (db ++ [supabaseRow jobId platform r]) := by
  rw [save_supabase_reviews, List.foldl_cons, if_neg ht, if_neg hex]
  rfl

/-- Count of a hash after inserting one fresh row: unchanged for other
hashes, one for the fresh row's own hash. -/
theorem countHash_append_fresh (db : List SRow) (rh : String) (row : SRow)
    (hrow : row.review_hash = rh) (hz : countHash db rh = 0) (h : String) :
    countHash (db ++ [row]) h = if rh = h then 1 else countHash db h := by
  rw [countHash_append, hrow]
  by_cases hh : rh = h
  · subst hh
    simp [hz]
  · simp [hh]

/-- A hash already persisted keeps its exact row count through the
background save step in Supabase mode. -/
theorem save_step_count_of_present (jobId : Nat) (reviews : List Review) (st : SaveState)
    (h : String) (hp : 0 < countHash st.db h) :
    countHash (save_step true jobId reviews st).db h = countHash st.db h := by
  induction reviews generalizing st with
  | nil => rfl
  | cons r rs ih =>
    by_cases hex : existsByHash st.db (fingerprintText r.text) = true
    · rw [save_step_cons_skip jobId r rs st hex]
      exact ih ⟨st.db, st.saved, st.skipped + 1⟩ hp
    · rw [save_step_cons_insert jobId r rs st hex]
      have hfalse : existsByHash st.db (fingerprintText r.text) = false := by
        rwa [Bool.not_eq_true] at hex
      have hz : countHash st.db (fingerprintText r.text) = 0 :=
        (existsByHash_false_iff _ _).mp hfalse
      have hnew : countHash (st.db ++ [saveStepRow jobId r]) h = countHash st.db h := by
        rw [countHash_append_fresh st.db (fingerprintText r.text) _
          (saveStepRow_hash jobId r) hz h]
        have hne : ¬ fingerprintText r.text = h := by
          intro heq
          rw [heq] at hz
          omega
        rw [if_neg hne]
      have hres := ih ⟨st.db ++ [saveStepRow jobId r], st.saved + 1, st.skipped⟩
        (by rw [show (⟨st.db ++ [saveStepRow jobId r], st.saved + 1, st.skipped⟩
          : SaveState).db = st.db ++ [saveStepRow jobId r] from rfl, hnew]; exact hp)
      rw [hres, hnew]

/-- The background save step in Supabase mode never brings a hash above
one persisted row. -/
theorem save_step_count_le_one (jobId : Nat) (reviews : List Review) (st : SaveState)
    (h : String) (hle : countHash st.db h ≤ 1) :
    countHash (save_step true jobId reviews st).db h ≤ 1 := by
  induction reviews generalizing st with
  | nil => exact hle
  | cons r rs ih =>
    by_cases hex : existsByHash st.db (fingerprintText r.text) = true
    · rw [save_step_cons_skip jobId r rs st hex]
      exact ih ⟨st.db, st.saved, st.skipped + 1⟩ hle
    · rw [save_step_cons_insert jobId r rs st hex]
      refine ih ⟨st.db ++ [saveStepRow jobId r], st.saved + 1, st.skipped⟩ ?_
      have hfalse : existsByHash st.db (fingerprintText r.text) = false := by
        rwa [Bool.not_eq_true] at hex
      have hz : countHash st.db (fingerprintText r.text) = 0 :=
        (existsByHash_false_iff _ _).mp hfalse
      show countHash (st.db ++ [saveStepRow jobId r]) h ≤ 1
      rw [countHash_append_fresh st.db (fingerprintText r.text) _
        (saveStepRow_hash jobId r) hz h]
      by_cases hh : fingerprintText r.text = h
      · rw [if_pos hh]
      · rw [if_neg hh]
        exact hle

/-- Hash counts at most one are preserved by the Supabase-path save
loop. -/
theorem save_supabase_count_le_one (jobId : Nat) (platform : String)
    (reviews : List Review) (db : List SRow) (h : String) (hle : countHash db h ≤ 1) :
    countHash (save_supabase_reviews jobId platform reviews db) h ≤ 1 := by
  induction reviews generalizing db with
  | nil => exact hle
  | cons r rs ih =>
    by_cases ht : r.text = ""
    · rw [save_supabase_cons_empty jobId platform r rs db ht]
      exact ih db hle
    · by_cases hex : existsByHash db (fingerprintText r.text) = true
      · rw [save_supabase_cons_skip jobId platform r rs db ht hex]
        exact ih db hle
      · rw [save_supabase_cons_insert jobId platform r rs db ht hex]
        refine ih (db ++ [supabaseRow jobId platform r]) ?_
        have hfalse : existsByHash db (fingerprintText r.text) = false := by
          rwa [Bool.not_eq_true] at hex
        have hz : countHash db (fingerprintText r.text) = 0 :=
          (existsByHash_false_iff _ _).mp hfalse
        rw [countHash_append_fresh db (fingerprintText r.text) _
          (supabaseRow_hash jobId platform r) hz h]
        by_cases hh : fingerprintText r.text = h
        · rw [if_pos hh]
        · rw [if_neg hh]
          exact hle

/-- A hash already persisted keeps its exact row count through the
Supabase save loop. -/
theorem save_supabase_count_of_present (jobId : Nat) (platform : String)
    (reviews : List Review) (db : List SRow) (h : String) (hp : 0 < countHash db h) :
    countHash (save_supabase_reviews jobId platform reviews db) h = countHash db h := by
  induction reviews generalizing db with
  | nil => rfl
  | cons r rs ih =>
    by_cases ht : r.text = ""
    · rw [save_supabase_cons_empty jobId platform r rs db ht]
      exact ih db hp
    · by_cases hex : existsByHash db (fingerprintText r.text) = true
      · rw [save_supabase_cons_skip jobId platform r rs db ht hex]
        exact ih db hp
      · rw [save_supabase_cons_insert jobId platform r rs db ht hex]
        have hfalse : existsByHash db (fingerprintText r.text) = false := by
          rwa [Bool.not_eq_true] at hex
        have hz : countHash db (fingerprintText r.text) = 0 :=
          (existsByHash_false_iff _ _).mp hfalse
        have hnew : countHash (db ++ [supabaseRow jobId platform r]) h = countHash db h := by
          rw [countHash_append_fresh db (fingerprintText r.text) _
            (supabaseRow_hash jobId platform r) hz h]
          have hne : ¬ fingerprintText r.text = h := by
            intro heq
            rw [heq] at hz
            omega
          rw [if_neg hne]
        rw [ih (db ++ [supabaseRow jobId platform r]) (by rw [hnew]; exact hp), hnew]

/-- The hash of the row the PostgreSQL save loop inserts. -/
theorem pgRow_hash (jobId : Nat) (platform : String) (r : Review) :
    (pgRow jobId platform r).review_hash = fingerprintFull platform r := by
  simp only [pgRow]

/-- Unfold the PostgreSQL save loop on a duplicate head review. -/
theorem save_pg_cons_skip (jobId : Nat) (platform : String) (r : Review)
    (rest : List Review) (db : List SRow)
    (hex : existsByHash db (fingerprintFull platform r) = true) :
    save_pg_reviews jobId platform (r :: rest) db
      = save_pg_reviews jobId platform rest db := by
  rw [save_pg_reviews, List.foldl_cons, if_pos hex]
  rfl

/-- Unfold the PostgreSQL save loop on a fresh head review. -/
theorem save_pg_cons_insert (jobId : Nat) (platform : String) (r : Review)
    (rest : List Review) (db : List SRow)
    (hex : ¬ existsByHash db (fingerprintFull platform r) = true) :
    save_pg_reviews jobId platform (r :: rest) db
      = save_pg_reviews jobId platform rest (db ++ [pgRow jobId platform r]) := by
  rw [save_pg_reviews, List.foldl_cons, if_neg hex]
  rfl

/-- A hash already persisted keeps its exact row count through the
PostgreSQL save loop. -/
theorem save_pg_count_of_present (jobId : Nat) (platform : String)
    (reviews : List Review) (db : List SRow) (h : String) (hp : 0 < countHash db h) :
    countHash (save_pg_reviews jobId platform reviews db) h = countHash db h := by
  induction reviews generalizing db with
  | nil => rfl
  | cons r rs ih =>
    by_cases hex : existsByHash db (fingerprintFull platform r) = true
    · rw [save_pg_cons_skip jobId platform r rs db hex]
      exact ih db hp
    · rw [save_pg_cons_insert jobId platform r rs db hex]
      have hfalse : existsByHash db (fingerprintFull platform r) = false := by
        rwa [Bool.not_eq_true] at hex
      have hz : countHash db (fingerprintFull platform r) = 0 :=
        (existsByHash_false_iff _ _).mp hfalse
      have hnew : countHash (db ++ [pgRow jobId platform r]) h = countHash db h := by
        rw [countHash_append_fresh db (fingerprintFull platform r) _
          (pgRow_hash jobId platform r) hz h]
        have hne : ¬ fingerprintFull platform r = h := by
          intro heq
          rw [heq] at hz
          omega
        rw [if_neg hne]
      rw [ih (db ++ [pgRow jobId platform r]) (by rw [hnew]; exact hp), hnew]

/-- The PostgreSQL save loop never brings a hash above one persisted
row. -/
theorem save_pg_count_le_one (jobId : Nat) (platform : String)
    (reviews : List Review) (db : List SRow) (h : String) (hle : countHash db h ≤ 1) :
    countHash (save_pg_reviews jobId platform reviews db) h ≤ 1 := by
  induction reviews generalizing db with
  | nil => exact hle
  | cons r rs ih =>
    by_cases hex : existsByHash db (fingerprintFull platform r) = true
    · rw [save_pg_cons_skip jobId platform r rs db hex]
      exact ih db hle
    · rw [save_pg_cons_insert jobId platform r rs db hex]
      refine ih (db ++ [pgRow jobId platform r]) ?_
      have hfalse : existsByHash db (fingerprintFull platform r) = false := by
        rwa [Bool.not_eq_true] at hex
      have hz : countHash db (fingerprintFull platform r) = 0 :=
        (existsByHash_false_iff _ _).mp hfalse
      rw [countHash_append_fresh db (fingerprintFull platform r) _
        (pgRow_hash jobId platform r) hz h]
      by_cases hh : fingerprintFull platform r = h
      · rw [if_pos hh]
      · rw [if_neg hh]
        exact hle

/-- C2 as stated is false on the code: in non-Supabase mode the
background save step performs no duplicate-existence check (the check at
functions.py:132 is guarded by database.is_supabase()), so a review
whose fingerprint already has a persisted row is inserted again — two
rows carry the hash afterwards, nothing is counted as skipped, and the
insert is counted as saved. -/
theorem save_step_nonsupabase_duplicate :
    countHash (save_step false 1 [demoShortReview]
        { db := [saveStepRow 1 demoShortReview], saved := 1, skipped := 0 }).db
      (fingerprintText demoShortReview.text) = 2
    ∧ (save_step false 1 [demoShortReview]
        { db := [saveStepRow 1 demoShortReview], saved := 1, skipped := 0 }).skipped = 0
    ∧ (save_step false 1 [demoShortReview]
        { db := [saveStepRow 1 demoShortReview], saved := 1, skipped := 0 }).saved = 2 := by
  refine ⟨by decide, by decide, by decide⟩

/-- C2 amended: on every save path that checks — the background save step
in its Supabase mode (the only mode in which functions.py checks), and
both the Supabase and the PostgreSQL branches of save_scraping_results —
a review whose fingerprint already has a persisted row is skipped: the
row set is unchanged, the skip is counted as a duplicate on the
background step (not reported as an error), and processing continues
with the remaining reviews; consequently a hash persisted exactly once
still has exactly one row afterwards, and never more than one.  (The
background save step in non-Supabase mode performs no existence check
and can insert a second row with the same hash.) -/
theorem save_dedup_spec :
    (∀ (jobId : Nat) (r : Review) (rest : List Review) (st : SaveState),
        existsByHash st.db (fingerprintText r.text) = true →
        save_step true jobId (r :: rest) st
          = save_step true jobId rest
              { db := st.db, saved := st.saved, skipped := st.skipped + 1 })
    ∧ (∀ (jobId : Nat) (reviews : List Review) (st : SaveState) (h : String),
        0 < countHash st.db h →
        countHash (save_step true jobId reviews st).db h = countHash st.db h)
    ∧ (∀ (jobId : Nat) (reviews : List Review) (st : SaveState) (h : String),
        countHash st.db h ≤ 1 →
        countHash (save_step true jobId reviews st).db h ≤ 1)
    ∧ (∀ (jobId : Nat) (platform : String) (r : Review) (rest : List Review) (db : List SRow),
        existsByHash db (fingerprintText r.text) = true →
        save_supabase_reviews jobId platform (r :: rest) db
          = save_supabase_reviews jobId platform rest db)
    ∧ (∀ (jobId : Nat) (platform : String) (reviews : List Review) (db : List SRow)
          (h : String),
        0 < countHash db h →
        countHash (save_supabase_reviews jobId platform reviews db) h = countHash db h)
    ∧ (∀ (jobId : Nat) (platform : String) (reviews : List Review) (db : List SRow)
          (h : String),
        countHash db h ≤ 1 →
        countHash (save_supabase_reviews jobId platform reviews db) h ≤ 1)
    ∧ (∀ (jobId : Nat) (platform : String) (r : Review) (rest : List Review) (db : List SRow),
        existsByHash db (fingerprintFull platform r) = true →
        save_pg_reviews jobId platform (r :: rest) db
          = save_pg_reviews jobId platform rest db)
    ∧ (∀ (jobId : Nat) (platform : String) (reviews : List Review) (db : List SRow)
          (h : String),
        0 < countHash db h →
        countHash (save_pg_reviews jobId platform reviews db) h = countHash db h)
    ∧ (∀ (jobId : Nat) (platform : String) (reviews : List Review) (db : List SRow)
          (h : String),
        countHash db h ≤ 1 →
        countHash (save_pg_reviews jobId platform reviews db) h ≤ 1) := by
  refine ⟨?_, save_step_count_of_present, save_step_count_le_one, ?_,
    save_supabase_count_of_present, save_supabase_count_le_one,
    save_pg_cons_skip, save_pg_count_of_present, save_pg_count_le_one⟩
  · intro jobId r rest st hex
    exact save_step_cons_skip jobId r rest st hex
  · intro jobId platform r rest db hex
    by_cases ht : r.text = ""
    · exact save_supabase_cons_empty jobId platform r rest db ht
    · exact save_supabase_cons_skip jobId platform r rest db ht hex

/-- Witness instantiating save_dedup_spec: saving a review whose hash is
already persisted (Supabase mode) leaves the single row in place and
counts one skip. -/
theorem save_dedup_witness :
    save_step true 1 [demoShortReview]
        { db := [saveStepRow 1 demoShortReview], saved := 1, skipped := 0 }
      = { db := [saveStepRow 1 demoShortReview], saved := 1, skipped := 1 } := by
  rw [save_dedup_spec.1 1 demoShortReview []
    { db := [saveStepRow 1 demoShortReview], saved := 1, skipped := 0 } (by decide)]
  rfl

/-- C10: the Supabase save path silently skips any review whose text is
empty before hashing or inserting (even when the review carries a
rating), and therefore every row it persists has non-empty text whenever
the already-persisted rows do. -/
theorem supabase_nonempty_text_spec :
    (∀ (jobId : Nat) (platform : String) (r : Review) (rest : List Review) (db : List SRow),
        r.text = "" →
        save_supabase_reviews jobId platform (r :: rest) db
          = save_supabase_reviews jobId platform rest db)
    ∧ (∀ (jobId : Nat) (platform : String) (reviews : List Review) (db : List SRow),
        (∀ row ∈ db, row.text ≠ "") →
        ∀ row ∈ save_supabase_reviews jobId platform reviews db, row.text ≠ "") := by
  constructor
  · intro jobId platform r rest db ht
    exact save_supabase_cons_empty jobId platform r rest db ht
  · intro jobId platform reviews
    induction reviews with
    | nil => intro db hdb; exact hdb
    | cons r rs ih =>
      intro db hdb
      by_cases ht : r.text = ""
      · rw [save_supabase_cons_empty jobId platform r rs db ht]
        exact ih db hdb
      · by_cases hex : existsByHash db (fingerprintText r.text) = true
        · rw [save_supabase_cons_skip jobId platform r rs db ht hex]
          exact ih db hdb
        · rw [save_supabase_cons_insert jobId platform r rs db ht hex]
          refine ih (db ++ [supabaseRow jobId platform r]) ?_
          intro row hrow
          rcases List.mem_append.mp hrow with hmem | hmem
          · exact hdb row hmem
          · rcases List.mem_singleton.mp hmem with rfl
            rw [supabaseRow_text jobId platform r]
            exact ht

/-- Witness instantiating supabase_nonempty_text_spec: a rated review
with empty text is not persisted. -/
theorem supabase_nonempty_text_witness :
    save_supabase_reviews 1 "google" [demoEmptyTextReview] [] = [] := by
  rw [supabase_nonempty_text_spec.1 1 "google" demoEmptyTextReview [] [] rfl]
  rfl

/-- C4 as stated is false on the code: a keyword job whose every platform
raises records one error entry per platform, yet still finishes with
status "completed" (with zero collected reviews), not "failed". -/
theorem all_failures_still_completed :
    ((process_scraping_job "keyword" "Hotel X" ["google", "booking"]
        (fun _ => PlatformFetch.exn "timeout")).results.map (fun pr => pr.status)
      = ["error", "error"])
    ∧ (process_scraping_job "keyword" "Hotel X" ["google", "booking"]
        (fun _ => PlatformFetch.exn "timeout")).allReviews = []
    ∧ (process_scraping_job "keyword" "Hotel X" ["google", "booking"]
        (fun _ => PlatformFetch.exn "timeout")).finalStatus = "completed"
    ∧ ¬ (process_scraping_job "keyword" "Hotel X" ["google", "booking"]
        (fun _ => PlatformFetch.exn "timeout")).finalStatus = "failed" := by
  refine ⟨by decide, by decide, by decide, by decide⟩

/-- Unfold a keyword-mode job run on a non-empty platform list. -/
theorem process_keyword_eq (query : String) (p : String) (ps : List String)
    (fetch : String → PlatformFetch) :
    process_scraping_job "keyword" query (p :: ps) fetch
      = { results := (p :: ps).map (fun q => platformResultOf q (fetch q)),
          allReviews := collectReviews ((p :: ps).map (fun q => platformResultOf q (fetch q))),
          finalStatus := "completed", statusMessage := none } := by
  rw [process_scraping_job, if_neg (by decide : ¬ ("keyword" = "url")), runPlatforms,
    if_neg (by simp : ¬ ((p :: ps).isEmpty = true))]

/-- The recorded platform of a platform result entry. -/
theorem platformResultOf_platform (q : String) (f : PlatformFetch) :
    (platformResultOf q f).platform = q := by
  cases f <;> rfl

/-- C4 amended: per-platform outcomes are recorded independently for
every requested platform (an exception becomes that platform's error
entry without touching its siblings), and the job then finishes with
status "completed" regardless of how many platforms failed — even when
every platform fails; "failed" is reached only for an unrecognized URL,
an empty platform selection, or an exception escaping the save and
statistics steps. -/
theorem platform_failure_isolation (query : String) (platforms : List String)
    (fetch : String → PlatformFetch) (hne : platforms ≠ []) :
    ((process_scraping_job "keyword" query platforms fetch).results.map
        (fun pr => pr.platform) = platforms)
    ∧ (∀ pr ∈ (process_scraping_job "keyword" query platforms fetch).results,
        pr.status = statusOf (fetch pr.platform))
    ∧ (process_scraping_job "keyword" query platforms fetch).finalStatus = "completed" := by
  cases platforms with
  | nil => exact absurd rfl hne
  | cons p ps =>
    rw [process_keyword_eq query p ps fetch]
    refine ⟨?_, ?_, rfl⟩
    · rw [List.map_map]
      have hplat : ∀ q, ((fun pr => pr.platform) ∘ (fun q => platformResultOf q (fetch q))) q
          = id q := by
        intro q
        simp [Function.comp, platformResultOf_platform]
      rw [List.map_congr_left (fun q _ => hplat q), List.map_id]
    · intro pr hpr
      rcases List.mem_map.mp hpr with ⟨q, _, rfl⟩
      rw [platformResultOf_platform]
      cases hq : fetch q <;> simp [platformResultOf, statusOf, hq]

/-- Witness instantiating platform_failure_isolation on a one-platform
job whose platform raises. -/
theorem platform_failure_isolation_witness :
    (process_scraping_job "keyword" "Hotel Arts Barcelona" ["google"]
        (fun _ => PlatformFetch.exn "boom")).finalStatus = "completed" :=
  (platform_failure_isolation "Hotel Arts Barcelona" ["google"]
    (fun _ => PlatformFetch.exn "boom") (by decide)).2.2

/-- C1: each fingerprint is a pure function of the review's stable fields
(the date does not enter it), and within each save path the same hash is
used for the existence check and the insert (save_step_cons_insert,
save_supabase_cons_insert); but the two save paths use different schemes:
on one and the same review the PostgreSQL path hashes
author-text-rating-platform to 32 hex characters while the Supabase path
and the background save step hash the text alone to 16, so the two paths
give one logical review two different hashes — the cross-path consistency
the claim asserts fails. -/
theorem fingerprint_cross_path_mismatch :
    (∀ (p a t : String) (q : Option ℚ) (d d' : String),
        fingerprintFull p { platform := p, author := a, text := t, rating := q, date := d }
          = fingerprintFull p { platform := p, author := a, text := t, rating := q, date := d' })
    ∧ (∀ (p a a' t : String) (q : Option ℚ) (d d' : String),
        fingerprintText
            (Review.text { platform := p, author := a, text := t, rating := q, date := d })
          = fingerprintText
            (Review.text { platform := p, author := a', text := t, rating := q, date := d' }))
    ∧ (fingerprintFull "google" demoRatedReview).length = 32
    ∧ (fingerprintText demoRatedReview.text).length = 16
    ∧ fingerprintFull "google" demoRatedReview ≠ fingerprintText demoRatedReview.text := by
  refine ⟨fun p a t q d d' => rfl, fun p a a' t q d d' => rfl, by decide, by decide, by decide⟩

/-- C5: the vector point id is derived from the review id through
Python's builtin hash(), which is keyed per process: with the hash
function one process realizes, re-indexing the same review id overwrites
the single existing point, but under the (generally different) hash
function of a second process the same review id maps to a different
point id, so re-indexing after a restart leaves two points carrying the
same review id instead of overwriting in place. -/
theorem point_id_not_restart_stable :
    ((add_review (fun t => Int.ofNat t.length) (fun _ => [1]) "google_ab12" "good stay"
        (add_review (fun t => Int.ofNat t.length) (fun _ => [1]) "google_ab12" "good stay"
          []).2).2.length = 1)
    ∧ ((add_review (fun t => Int.ofNat (t.length + 1)) (fun _ => [1]) "google_ab12" "good stay"
        (add_review (fun t => Int.ofNat t.length) (fun _ => [1]) "google_ab12" "good stay"
          []).2).2.length = 2)
    ∧ (((add_review (fun t => Int.ofNat (t.length + 1)) (fun _ => [1]) "google_ab12" "good stay"
        (add_review (fun t => Int.ofNat t.length) (fun _ => [1]) "google_ab12" "good stay"
          []).2).2.filter (fun pt => pt.review_id == "google_ab12")).length = 2) := by
  refine ⟨by decide, by decide, by decide⟩

/-- C8 as stated is false on the code: the batch enrichment of a review
with empty text and no rating stores a null sentiment confidence, not
the confidence 0 the claim asserts. -/
theorem absent_sentiment_confidence_counterexample :
    (analyze_reviews_batch (fun _ => default) [demoBareReview]).map
        (fun er => er.sentiment_confidence) = [none]
    ∧ ¬ ((analyze_reviews_batch (fun _ => default) [demoBareReview]).map
        (fun er => er.sentiment_confidence) = [some 0]) := by
  refine ⟨by decide, by decide⟩

/-- Appending a sentiment-less review leaves the analyzed subset as is. -/
theorem analyzedOf_append_none (E : List EnrichedReview) (e : EnrichedReview)
    (hs : e.sentiment = none) : analyzedOf (E ++ [e]) = analyzedOf E := by
  simp [analyzedOf, List.filter_append, hs]

/-- Appending a sentiment-less review extends the no-text subset by it. -/
theorem noTextOf_append_none (E : List EnrichedReview) (e : EnrichedReview)
    (hs : e.sentiment = none) : noTextOf (E ++ [e]) = noTextOf E ++ [e] := by
  simp [noTextOf, List.filter_append, hs]

/-- Appending a sentiment-less review leaves the confidence list as is. -/
theorem confidencesOf_append_none (E : List EnrichedReview) (e : EnrichedReview)
    (hs : e.sentiment = none) : confidencesOf (E ++ [e]) = confidencesOf E := by
  rw [confidencesOf, analyzedOf_append_none E e hs, confidencesOf]

/-- Appending a sentiment-less review leaves every label count as is. -/
theorem sentimentCount_append_none (E : List EnrichedReview) (e : EnrichedReview)
    (hs : e.sentiment = none) (lab : SLabel) :
    sentimentCount lab (E ++ [e]) = sentimentCount lab E := by
  rw [sentimentCount, analyzedOf_append_none E e hs, sentimentCount]

/-- Appending a sentiment-less review leaves every label percentage as
is. -/
theorem labelPercentage_append_none (E : List EnrichedReview) (e : EnrichedReview)
    (hs : e.sentiment = none) (lab : SLabel) :
    labelPercentage lab (E ++ [e]) = labelPercentage lab E := by
  rw [labelPercentage, analyzedOf_append_none E e hs, sentimentCount_append_none E e hs,
    labelPercentage]

/-- Unfold get_sentiment_summary on a non-empty list. -/
theorem get_sentiment_summary_ne (l : List EnrichedReview) (hne : l.isEmpty = false) :
    get_sentiment_summary l
      = { total_reviews := l.length, analyzed_reviews := (analyzedOf l).length,
          positive := sentimentCount SLabel.positive l,
          negative := sentimentCount SLabel.negative l,
          neutral := sentimentCount SLabel.neutral l,
          no_text := (noTextOf l).length,
          positive_percentage := labelPercentage SLabel.positive l,
          negative_percentage := labelPercentage SLabel.negative l,
          neutral_percentage := labelPercentage SLabel.neutral l,
          average_confidence :=
            if (confidencesOf l).isEmpty then 0
            else round2 ((confidencesOf l).sum / ((confidencesOf l).length : ℚ)) } := by
  rw [get_sentiment_summary, if_neg (by rw [hne]; exact Bool.false_ne_true)]

/-- C8 amended: a review with empty (stripped) text and no rating is
enriched with absent sentiment, absent (null, not 0) confidence and
method "none"; it is still produced in the batch output rather than
raising; and for the aggregate summary it is excluded from the analyzed
subset: appended to any batch it leaves the per-label counts, the
analyzed count, the percentages (computed over the analyzed subset only)
and the mean confidence unchanged, while raising only the no-text and
total counters by one. -/
theorem absent_sentiment_spec (analyzeText : String → TextSentiment)
    (reviews : List Review) (r : Review) (ht : pyStrip r.text = "") (hr : r.rating = none) :
    analyze_reviews_batch analyzeText (reviews ++ [r])
      = analyze_reviews_batch analyzeText reviews ++ [noSentimentEnrichment r]
    ∧ (noSentimentEnrichment r).sentiment = none
    ∧ (noSentimentEnrichment r).sentiment_confidence = none
    ∧ (noSentimentEnrichment r).sentiment_method = "none"
    ∧ (get_sentiment_summary (analyze_reviews_batch analyzeText (reviews ++ [r]))).positive
        = (get_sentiment_summary (analyze_reviews_batch analyzeText reviews)).positive
    ∧ (get_sentiment_summary (analyze_reviews_batch analyzeText (reviews ++ [r]))).negative
        = (get_sentiment_summary (analyze_reviews_batch analyzeText reviews)).negative
    ∧ (get_sentiment_summary (analyze_reviews_batch analyzeText (reviews ++ [r]))).neutral
        = (get_sentiment_summary (analyze_reviews_batch analyzeText reviews)).neutral
    ∧ (get_sentiment_summary (analyze_reviews_batch analyzeText
          (reviews ++ [r]))).analyzed_reviews
        = (get_sentiment_summary (analyze_reviews_batch analyzeText reviews)).analyzed_reviews
    ∧ (get_sentiment_summary (analyze_reviews_batch analyzeText
          (reviews ++ [r]))).positive_percentage
        = (get_sentiment_summary (analyze_reviews_batch analyzeText
            reviews)).positive_percentage
    ∧ (get_sentiment_summary (analyze_reviews_batch analyzeText
          (reviews ++ [r]))).negative_percentage
        = (get_sentiment_summary (analyze_reviews_batch analyzeText
            reviews)).negative_percentage
    ∧ (get_sentiment_summary (analyze_reviews_batch analyzeText
          (reviews ++ [r]))).neutral_percentage
        = (get_sentiment_summary (analyze_reviews_batch analyzeText
            reviews)).neutral_percentage
    ∧ (get_sentiment_summary (analyze_reviews_batch analyzeText
          (reviews ++ [r]))).average_confidence
        = (get_sentiment_summary (analyze_reviews_batch analyzeText
            reviews)).average_confidence
    ∧ (get_sentiment_summary (analyze_reviews_batch analyzeText (reviews ++ [r]))).no_text
        = (get_sentiment_summary (analyze_reviews_batch analyzeText reviews)).no_text + 1
    ∧ (get_sentiment_summary (analyze_reviews_batch analyzeText
          (reviews ++ [r]))).total_reviews
        = (get_sentiment_summary (analyze_reviews_batch analyzeText reviews)).total_reviews
            + 1 := by
  have hone : analyze_reviews_batch analyzeText [r] = [noSentimentEnrichment r] := by
    simp [analyze_reviews_batch, ht, hr]
  have happ : analyze_reviews_batch analyzeText (reviews ++ [r])
      = analyze_reviews_batch analyzeText reviews ++ [noSentimentEnrichment r] := by
    rw [analyze_reviews_batch, List.map_append, ← analyze_reviews_batch, ← hone]
    rfl
  have hsnone : (noSentimentEnrichment r).sentiment = none := rfl
  by_cases hE : analyze_reviews_batch analyzeText reviews = []
  · rw [happ, hE]
    refine ⟨rfl, rfl, rfl, rfl, ?_, ?_, ?_, ?_, ?_, ?_, ?_, ?_, ?_, ?_⟩ <;>
      simp [get_sentiment_summary, analyzedOf, noTextOf, sentimentCount, labelPercentage,
        confidencesOf, noSentimentEnrichment]
  · have hneE : (analyze_reviews_batch analyzeText reviews).isEmpty = false := by
      cases hcase : analyze_reviews_batch analyzeText reviews with
      | nil => exact absurd hcase hE
      | cons a as => rfl
    have hneApp : (analyze_reviews_batch analyzeText reviews
        ++ [noSentimentEnrichment r]).isEmpty = false := by
      cases hcase : analyze_reviews_batch analyzeText reviews ++ [noSentimentEnrichment r] with
      | nil => exact absurd hcase (by simp)
      | cons a as => rfl
    rw [happ, get_sentiment_summary_ne _ hneApp, get_sentiment_summary_ne _ hneE]
    refine ⟨rfl, rfl, rfl, rfl, ?_, ?_, ?_, ?_, ?_, ?_, ?_, ?_, ?_, ?_⟩ <;>
      simp [sentimentCount_append_none _ _ hsnone, analyzedOf_append_none _ _ hsnone,
        labelPercentage_append_none _ _ hsnone, confidencesOf_append_none _ _ hsnone,
        noTextOf_append_none _ _ hsnone]

/-- Witness instantiating absent_sentiment_spec on a singleton batch. -/
theorem absent_sentiment_witness :
    analyze_reviews_batch (fun _ => default) ([] ++ [demoBareReview])
      = [noSentimentEnrichment demoBareReview] :=
  (absent_sentiment_spec (fun _ => default) [] demoBareReview rfl rfl).1

/-- Characterize membership in the categorize_keywords result. -/
theorem mem_categorize_iff (dict : Dictionary) (keywords : List String) (text : String)
    (language : Option Lang) (ck : String) (m : CatMatch) (hd : dict.isEmpty = false) :
    (ck, m) ∈ categorize_keywords dict keywords text language
      ↔ ∃ cd, (ck, cd) ∈ dict
          ∧ (foundKeywords (kwFor cd (resolvedLang keywords text language))
              (allTextOf keywords text)).isEmpty = false
          ∧ m = mkCatMatch cd (resolvedLang keywords text language)
              (foundKeywords (kwFor cd (resolvedLang keywords text language))
                (allTextOf keywords text)) := by
  rw [categorize_keywords, if_neg (by rw [hd]; exact Bool.false_ne_true)]
  rw [List.mem_mergeSort, List.mem_filterMap]
  constructor
  · rintro ⟨kv, hkv, hf⟩
    by_cases hfks : (foundKeywords (kwFor kv.2 (resolvedLang keywords text language))
        (allTextOf keywords text)).isEmpty = true
    · rw [if_pos hfks] at hf
      exact absurd hf (by simp)
    · rw [if_neg hfks] at hf
      injection hf with hpair
      obtain ⟨h1, h2⟩ := Prod.mk.injEq .. |>.mp hpair
      refine ⟨kv.2, ?_, by rwa [Bool.not_eq_true] at hfks, h2.symm⟩
      rw [← h1]
      rw [show (kv.1, kv.2) = kv from rfl]
      exact hkv
  · rintro ⟨cd, hcd, hfne, hm⟩
    refine ⟨(ck, cd), hcd, ?_⟩
    rw [if_neg (by rw [hfne]; exact Bool.false_ne_true), hm]

/-- With unique keys, one key determines its category data. -/
theorem dict_key_unique (dict : Dictionary) (hkeys : (dict.map Prod.fst).Nodup)
    (ck : String) (c d : CategoryData) (hc : (ck, c) ∈ dict) (hd2 : (ck, d) ∈ dict) :
    c = d := by
  induction dict with
  | nil => cases hc
  | cons kv rest ih =>
    rw [List.map_cons, List.nodup_cons] at hkeys
    rcases List.mem_cons.mp hc with hc1 | hc2
    · rcases List.mem_cons.mp hd2 with hd1 | hd3
      · have hcd : (ck, c) = (ck, d) := hc1.trans hd1.symm
        exact (Prod.mk.injEq .. |>.mp hcd).2
      · exfalso
        apply hkeys.1
        have hk1 : kv.1 = ck := by rw [← hc1]
        rw [hk1]
        exact List.mem_map.mpr ⟨(ck, d), hd3, rfl⟩
    · rcases List.mem_cons.mp hd2 with hd1 | hd3
      · exfalso
        apply hkeys.1
        have hk1 : kv.1 = ck := by rw [← hd1]
        rw [hk1]
        exact List.mem_map.mpr ⟨(ck, c), hc2, rfl⟩
      · exact ih hkeys.2 hc2 hd3

/-- The raw weight of a list of two-decimal weights is two-decimal. -/
theorem centExact_rawWeight (ks : List KwEntry) (h : ∀ k ∈ ks, centExact k.weight) :
    centExact (rawWeight ks) := by
  induction ks with
  | nil => exact ⟨0, by norm_num [rawWeight]⟩
  | cons k ks ih =>
    obtain ⟨n, hn⟩ := h k (List.mem_cons_self k ks)
    obtain ⟨p, hp⟩ := ih (fun x hx => h x (List.mem_cons_of_mem _ hx))
    refine ⟨n + p, ?_⟩
    have hcons : rawWeight (k :: ks) = k.weight + rawWeight ks := by
      simp [rawWeight]
    rw [hcons, add_mul, ← hn, ← hp]
    push_cast
    ring

/-- round2 is the identity on two-decimal rationals. -/
theorem round2_centExact (q : ℚ) (h : centExact q) : round2 q = q := by
  obtain ⟨n, hn⟩ := h
  rw [round2, ← hn, round_intCast, div_eq_iff (by norm_num : (100 : ℚ) ≠ 0)]
  exact hn

/-- The matched-keyword list stored in a category entry. -/
theorem mkCatMatch_keywords_found (c : CategoryData) (lang : Lang) (fks : List KwEntry) :
    (mkCatMatch c lang fks).keywords_found = fks := by
  simp only [mkCatMatch]

/-- The total weight stored in a category entry. -/
theorem mkCatMatch_total_weight (c : CategoryData) (lang : Lang) (fks : List KwEntry) :
    (mkCatMatch c lang fks).total_weight = round2 (rawWeight fks) := by
  simp only [mkCatMatch]

/-- The confidence stored in a category entry. -/
theorem mkCatMatch_confidence (c : CategoryData) (lang : Lang) (fks : List KwEntry) :
    (mkCatMatch c lang fks).confidence
      = if fks.isEmpty then 0 else min (rawWeight fks / (fks.length : ℚ)) 1 := by
  simp only [mkCatMatch]

/-- Every matched keyword carries the weight of a dictionary keyword. -/
theorem foundKeywords_weight_mem (ks : List KwEntry) (A : String) (k : KwEntry)
    (hk : k ∈ foundKeywords ks A) : ∃ k0 ∈ ks, k.weight = k0.weight := by
  rw [foundKeywords] at hk
  obtain ⟨k0, hk0, hf⟩ := List.mem_filterMap.mp hk
  by_cases hc : strContains A (strLower k0.keyword) = true
  · rw [if_pos hc] at hf
    injection hf with hf
    exact ⟨k0, hk0, by rw [← hf]⟩
  · rw [if_neg hc] at hf
    cases hf

/-- A category has matched keywords exactly when one of its keywords for
the resolved language occurs in the combined lowercased text. -/
theorem foundKeywords_isEmpty_false_iff (ks : List KwEntry) (A : String) :
    (foundKeywords ks A).isEmpty = false
      ↔ ∃ k ∈ ks, strContains A (strLower k.keyword) = true := by
  rw [List.isEmpty_eq_false, foundKeywords, Ne, List.filterMap_eq_nil_iff]
  push_neg
  constructor
  · rintro ⟨k, hk, hne⟩
    refine ⟨k, hk, ?_⟩
    by_cases hc : strContains A (strLower k.keyword) = true
    · exact hc
    · rw [if_neg hc] at hne
      exact absurd rfl hne
  · rintro ⟨k, hk, hc⟩
    refine ⟨k, hk, ?_⟩
    rw [if_pos hc]
    simp

/-- C6: with a loaded dictionary of exact two-decimal weights, a category
key appears in the categorize_keywords result exactly when at least one
of its keywords for the resolved language occurs in the combined
lowercased text; its entry's total_weight is the sum of its matched
keywords' weights, its confidence is that sum divided by the number of
matched keywords and capped at 1.0, and the result is ordered by
descending total_weight. -/
theorem categorize_keywords_spec (dict : Dictionary) (keywords : List String) (text : String)
    (language : Option Lang) (hkeys : (dict.map Prod.fst).Nodup)
    (hw : ∀ kc ∈ dict, ∀ k ∈ kwFor kc.2 (resolvedLang keywords text language),
      centExact k.weight) :
    (∀ ck cd, (ck, cd) ∈ dict →
        ((∃ m, (ck, m) ∈ categorize_keywords dict keywords text language)
          ↔ ∃ k ∈ kwFor cd (resolvedLang keywords text language),
              strContains (allTextOf keywords text) (strLower k.keyword) = true))
    ∧ (∀ ck m, (ck, m) ∈ categorize_keywords dict keywords text language →
        ∃ cd, (ck, cd) ∈ dict
          ∧ foundKeywords (kwFor cd (resolvedLang keywords text language))
              (allTextOf keywords text) ≠ []
          ∧ m.keywords_found
              = foundKeywords (kwFor cd (resolvedLang keywords text language))
                  (allTextOf keywords text)
          ∧ m.total_weight = rawWeight m.keywords_found
          ∧ m.confidence = min (m.total_weight / (m.keywords_found.length : ℚ)) 1)
    ∧ (categorize_keywords dict keywords text language).Pairwise
        (fun a b => b.2.total_weight ≤ a.2.total_weight) := by
  have hord : ∀ l : List (String × CatMatch),
      (l.mergeSort (fun a b => decide (b.2.total_weight ≤ a.2.total_weight))).Pairwise
        (fun a b => b.2.total_weight ≤ a.2.total_weight) := by
    intro l
    have hs := @List.sorted_mergeSort (String × CatMatch)
      (fun a b => decide (b.2.total_weight ≤ a.2.total_weight))
      (fun a b c hab hbc =>
        decide_eq_true (le_trans (of_decide_eq_true hbc) (of_decide_eq_true hab)))
      (fun a b => by
        simp only [Bool.or_eq_true, decide_eq_true_eq]
        exact le_total b.2.total_weight a.2.total_weight)
      l
    exact hs.imp (fun hab => of_decide_eq_true hab)
  by_cases hd : dict.isEmpty = true
  · have hnil : dict = [] := List.isEmpty_eq_true.mp hd
    subst hnil
    refine ⟨fun ck cd hcd => absurd hcd (List.not_mem_nil _), ?_, ?_⟩
    · intro ck m hm
      rw [categorize_keywords] at hm
      simp at hm
    · rw [categorize_keywords]
      simp
  · have hdf : dict.isEmpty = false := by
      cases hcase : dict.isEmpty
      · rfl
      · exact absurd hcase hd
    refine ⟨?_, ?_, ?_⟩
    · intro ck cd hcd
      rw [← foundKeywords_isEmpty_false_iff]
      constructor
      · rintro ⟨m, hm⟩
        obtain ⟨cd', hcd', hfne', _⟩ :=
          (mem_categorize_iff dict keywords text language ck m hdf).mp hm
        rwa [dict_key_unique dict hkeys ck cd cd' hcd hcd']
      · intro hfne
        exact ⟨mkCatMatch cd (resolvedLang keywords text language)
            (foundKeywords (kwFor cd (resolvedLang keywords text language))
              (allTextOf keywords text)),
          (mem_categorize_iff dict keywords text language ck _ hdf).mpr
            ⟨cd, hcd, hfne, rfl⟩⟩
    · intro ck m hm
      obtain ⟨cd, hcd, hfne, hmk⟩ :=
        (mem_categorize_iff dict keywords text language ck m hdf).mp hm
      have hfnn : foundKeywords (kwFor cd (resolvedLang keywords text language))
          (allTextOf keywords text) ≠ [] := List.isEmpty_eq_false.mp hfne
      have hcent : centExact (rawWeight (foundKeywords
          (kwFor cd (resolvedLang keywords text language)) (allTextOf keywords text))) := by
        apply centExact_rawWeight
        intro k hk
        obtain ⟨k0, hk0, hkw⟩ := foundKeywords_weight_mem _ _ k hk
        rw [hkw]
        exact hw (ck, cd) hcd k0 hk0
      have hkf : m.keywords_found
          = foundKeywords (kwFor cd (resolvedLang keywords text language))
              (allTextOf keywords text) := by
        rw [hmk, mkCatMatch_keywords_found]
      have htw : m.total_weight = rawWeight m.keywords_found := by
        rw [hmk, mkCatMatch_total_weight, mkCatMatch_keywords_found,
          round2_centExact _ hcent]
      have hconf : m.confidence = min (m.total_weight / (m.keywords_found.length : ℚ)) 1 := by
        rw [hmk, mkCatMatch_confidence, mkCatMatch_total_weight, mkCatMatch_keywords_found,
          if_neg (by rw [hfne]; exact Bool.false_ne_true), round2_centExact _ hcent]
      exact ⟨cd, hcd, hfnn, hkf, htw, hconf⟩
    · rw [categorize_keywords, if_neg (by rw [hdf]; exact Bool.false_ne_true)]
      exact hord _

/-- Witness instantiating categorize_keywords_spec: on the demo
dictionary and the text "great wifi and clean pool", the connectivity
category appears in the result. -/
theorem categorize_keywords_witness :
    ∃ m, ("connectivity", m) ∈ categorize_keywords demoDict []
      "great wifi and clean pool" none := by
  have hlang : resolvedLang [] "great wifi and clean pool" none = Lang.en := by decide
  have hw : ∀ kc ∈ demoDict,
      ∀ k ∈ kwFor kc.2 (resolvedLang [] "great wifi and clean pool" none),
        centExact k.weight := by
    intro kc hkc k hk
    rw [hlang] at hk
    rcases List.mem_cons.mp hkc with rfl | hkc2
    · simp only [kwFor, demoConnectivity] at hk
      rcases List.mem_cons.mp hk with rfl | hk2
      · exact ⟨100, by norm_num⟩
      · rcases List.mem_singleton.mp hk2 with rfl
        exact ⟨50, by norm_num⟩
    · rcases List.mem_singleton.mp hkc2 with rfl
      simp only [kwFor, demoCleanliness] at hk
      rcases List.mem_cons.mp hk with rfl | hk2
      · exact ⟨80, by norm_num⟩
      · rcases List.mem_singleton.mp hk2 with rfl
        exact ⟨70, by norm_num⟩
  refine ((categorize_keywords_spec demoDict [] "great wifi and clean pool" none
      (by decide) hw).1 "connectivity" demoConnectivity
      (List.mem_cons_self _ _)).mpr ?_
  rw [hlang]
  refine ⟨{ keyword := "wifi", weight := 1 }, List.mem_cons_self _ _, by decide⟩

end Opinator
